import Mathlib

/-!
Verification development for the jokarikara stacking game core.

This file gives a shallow embedding, over exact real arithmetic, of the
game's core modules:

* `src/utils/geometry.ts` — shape vertex generation, the point-in-shape
  test (with its even-odd ray-casting loop) and the containment predicate;
* `src/shapes/index.ts` — the shape factory;
* `src/constants/game.ts` — the static configuration tables;
* `src/core/gameState.ts` — the pure state-transition functions.

JavaScript numbers are modelled as real numbers (ℝ); nonnegative integer
counters (score, level, world) are modelled as ℕ, matching the values they
actually take.  Sources of randomness (`Math.random()`) and of wall-clock
time (`Date.now()`) are turned into explicit parameters of the transition
functions.  `Record<number, T>` tables become `ℕ → Option T`.  Display
colors are opaque tokens to the core (it only stores and compares them),
so the two syntactic families of color values produced by the code —
palette/hex strings and boss `hsl(...)` strings — are embedded as the two
constructors of an inductive `Color` type.

Theorems about the claims of the specification follow the definitions.
-/

/-! ### Geometry data model (src/utils/geometry.ts) -/

inductive ShapeType where
  | circle
  | square
  | triangle
  | rectangle
  | pentagon
  | hexagon
  | octagon
  | star
  | diamond
deriving DecidableEq, Repr

/-- Display color token.  Hex palette entries are compared by the code
(`getNextColor`); hsl values are produced for boss shapes and never
inspected. -/
inductive Color where
  | hex (s : String)
  | hsl (hue : ℝ)

noncomputable instance : DecidableEq Color := Classical.decEq Color

noncomputable instance : BEq Color := instBEqOfDecidableEq

structure Shape where
  type : ShapeType
  size : ℝ
  rotation : ℝ
  color : Color
  opacity : ℝ

instance : Inhabited Shape := ⟨⟨ShapeType.circle, 0, 0, Color.hex (""), 0⟩⟩

structure Point where
  x : ℝ
  y : ℝ

/-! ### Configuration constants (src/constants/game.ts) -/

inductive GrowthPattern where
  | linear
  | accelerating
  | wave
deriving DecidableEq, Repr

structure WorldMechanics where
  breathingEffect : Bool
  breathingAmplitude : ℝ
  breathingSpeed : ℝ
  growthPattern : GrowthPattern
  waveEffect : Bool
  waveAmplitude : ℝ
  waveSpeed : ℝ
  colorShift : Bool
  colorShiftSpeed : ℝ
  eclipseEffect : Bool
  eclipsePulseSpeed : ℝ

def DEFAULT_MECHANICS : WorldMechanics :=
  { breathingEffect := false
    breathingAmplitude := 0
    breathingSpeed := 0
    growthPattern := GrowthPattern.linear
    waveEffect := false
    waveAmplitude := 0
    waveSpeed := 0
    colorShift := false
    colorShiftSpeed := 0
    eclipseEffect := false
    eclipsePulseSpeed := 0 }

/-- World mechanics configuration map (keys 1–6 in the source object). -/
def WORLD_MECHANICS : ℕ → Option WorldMechanics
  | 1 => some DEFAULT_MECHANICS
  | 2 => some
      { DEFAULT_MECHANICS with
        breathingEffect := true, breathingAmplitude := 0.03,
        breathingSpeed := 2 }
  | 3 => some
      { DEFAULT_MECHANICS with
        breathingEffect := true, breathingAmplitude := 0.03,
        breathingSpeed := 2, growthPattern := GrowthPattern.accelerating }
  | 4 => some
      { DEFAULT_MECHANICS with
        breathingEffect := true, breathingAmplitude := 0.03,
        breathingSpeed := 2, growthPattern := GrowthPattern.accelerating,
        waveEffect := true, waveAmplitude := 15, waveSpeed := 3 }
  | 5 => some
      { DEFAULT_MECHANICS with
        breathingEffect := true, breathingAmplitude := 0.03,
        breathingSpeed := 2, growthPattern := GrowthPattern.accelerating,
        waveEffect := true, waveAmplitude := 15, waveSpeed := 3,
        colorShift := true, colorShiftSpeed := 30 }
  | 6 => some
      { DEFAULT_MECHANICS with
        breathingEffect := true, breathingAmplitude := 0.03,
        breathingSpeed := 2, growthPattern := GrowthPattern.accelerating,
        waveEffect := true, waveAmplitude := 15, waveSpeed := 3,
        colorShift := true, colorShiftSpeed := 30,
        eclipseEffect := true, eclipsePulseSpeed := 0.5 }
  | _ => none

/-- The keys of the `WORLD_MECHANICS` object, in insertion order;
`Object.keys(WORLD_MECHANICS).length` is the length of this list. -/
def WORLD_MECHANICS_keys : List ℕ := [1, 2, 3, 4, 5, 6]

theorem WORLD_MECHANICS_keys_sound (k : ℕ) :
    (WORLD_MECHANICS k).isSome = true ↔ k ∈ WORLD_MECHANICS_keys := by
  match k with
  | 0 => simp [WORLD_MECHANICS, WORLD_MECHANICS_keys]
  | 1 | 2 | 3 | 4 | 5 | 6 => simp [WORLD_MECHANICS, WORLD_MECHANICS_keys]
  | (n+7) => simp [WORLD_MECHANICS, WORLD_MECHANICS_keys, Option.isSome]

/-- `getWorldMechanics`: `WORLD_MECHANICS[world] ??
WORLD_MECHANICS[Object.keys(WORLD_MECHANICS).length - 1]`.  The `??`
fallback chain is modelled on `Option`. -/
def getWorldMechanics (world : ℕ) : Option WorldMechanics :=
  (WORLD_MECHANICS world).orElse
    (fun _ => WORLD_MECHANICS (WORLD_MECHANICS_keys.length - 1))

def MIN_GROWTH_SPEED : ℝ := 35
def MAX_GROWTH_SPEED : ℝ := 80
def STACKS_PER_LEVEL : ℕ := 3
def REFERENCE_INITIAL_SIZE : ℝ := 360
def LEVELS_PER_WORLD : ℕ := 5
def TIME_ATTACK_START_TIME : ℝ := 60
def PERFECT_STACK_TIME_BONUS : ℝ := 5

structure BossShapeConfig where
  type : ShapeType
  growthSpeedMultiplier : ℝ
  rotationSpeedMultiplier : ℝ
  hueShift : Bool
  pulseEnabled : Bool := false
  erraticRotationEnabled : Bool := false

def BOSS_SHAPES : ℕ → Option BossShapeConfig
  | 5 => some
      { type := ShapeType.hexagon, growthSpeedMultiplier := 1.5,
        rotationSpeedMultiplier := 2.0, hueShift := true,
        pulseEnabled := true }
  | 10 => some
      { type := ShapeType.octagon, growthSpeedMultiplier := 2.0,
        rotationSpeedMultiplier := 2.5, hueShift := true,
        erraticRotationEnabled := true }
  | 15 => some
      { type := ShapeType.diamond, growthSpeedMultiplier := 2.2,
        rotationSpeedMultiplier := 3.0, hueShift := true,
        pulseEnabled := true }
  | 20 => some
      { type := ShapeType.star, growthSpeedMultiplier := 2.5,
        rotationSpeedMultiplier := 3.5, hueShift := true,
        pulseEnabled := true, erraticRotationEnabled := true }
  | _ => none

def SHAPE_UNLOCKS : ℕ → Option (List ShapeType)
  | 1 => some [ShapeType.circle, ShapeType.octagon]
  | 2 => some [ShapeType.pentagon, ShapeType.hexagon]
  | 3 => some [ShapeType.square]
  | 4 => some [ShapeType.triangle]
  | 5 => some [ShapeType.rectangle]
  | _ => none

def LEVEL_ZOOM_MAP : ℕ → Option ℝ
  | 1 => some 1.0
  | 2 => some 1.25
  | 3 => some 2.0
  | 4 => some 4.5
  | 5 => some 12
  | _ => none

/-- `LEVEL_ZOOM_MAP[level] ?? LEVEL_ZOOM_MAP[5]`; the inner default is never
reached since the key 5 is present. -/
def getZoomForLevel (level : ℕ) : ℝ :=
  (LEVEL_ZOOM_MAP level).getD ((LEVEL_ZOOM_MAP 5).getD 0)

def COLORS : List Color :=
  [Color.hex ("#3b82f6"), Color.hex ("#10b981"), Color.hex ("#f59e0b"),
   Color.hex ("#ef4444"), Color.hex ("#8b5cf6"), Color.hex ("#ec4899")]

/-- `getUnlockedShapes`: the loop `for i = 1..level` pushing each present
`SHAPE_UNLOCKS[i]`. -/
def getUnlockedShapes (level : ℕ) : List ShapeType :=
  (List.range level).flatMap (fun j => (SHAPE_UNLOCKS (j + 1)).getD [])

/-! ### Shape factory (src/shapes/index.ts)

`Math.random()` draws are surfaced as ℕ parameters (`pick`); the source
computes `Math.floor(Math.random() * list.length)`, a uniformly random
index into the list, modelled here as `pick % list.length`. -/

/-- `getNextColor`.  For an empty-list access JavaScript would yield
`undefined`; `COLORS` is nonempty so the `getD` defaults are never hit. -/
noncomputable def getNextColor (pick : ℕ) (lastColor : Option Color) : Color :=
  let nextColor := COLORS.getD (pick % COLORS.length) (Color.hex (""))
  if lastColor = some nextColor then
    COLORS.getD ((COLORS.indexOf nextColor + 1) % COLORS.length) (Color.hex (""))
  else nextColor

/-- `getRandomShapeType`.  At every reachable level (≥ 1) the unlocked list
is nonempty, so the `getD` default is never hit. -/
def getRandomShapeType (level : ℕ) (pick : ℕ) : ShapeType :=
  let unlockedShapes := getUnlockedShapes level
  unlockedShapes.getD (pick % unlockedShapes.length) ShapeType.circle

structure ShapeCreationOptions where
  type : Option ShapeType := none
  size : Option ℝ := none
  rotation : Option ℝ := none
  color : Option Color := none
  opacity : Option ℝ := none

/-- `createShape` with its `??` defaults. -/
def createShape (options : ShapeCreationOptions) : Shape :=
  { type := options.type.getD ShapeType.circle
    size := options.size.getD 100
    rotation := options.rotation.getD 0
    color := options.color.getD (COLORS.getD 0 (Color.hex ("")))
    opacity := options.opacity.getD 1 }

def createInitialShape (viewportSize : ℝ) : Shape :=
  createShape
    { type := some ShapeType.circle
      size := some (viewportSize * 0.45)
      color := some (COLORS.getD 0 (Color.hex ("")))
      opacity := some 1 }

/-- `createActiveShape`; `typePick`/`colorPick` stand for the two
`Math.random()` draws. -/
noncomputable def createActiveShape (level : ℕ) (lastShape : Option Shape)
    (typePick colorPick : ℕ) : Shape :=
  let type := getRandomShapeType level typePick
  let lastColor := lastShape.map (fun s => s.color)
  let color := getNextColor colorPick lastColor
  let startSize : ℝ := match lastShape with
    | some s => s.size * 0.05
    | none => 10
  createShape
    { type := some type
      size := some startSize
      color := some color
      rotation := some 0
      opacity := some 0.8 }

/-! ### Game state (src/types.ts, src/core/gameState.ts) -/

inductive GameMode where
  | CLASSIC
  | ZEN
  | TIME_ATTACK
deriving DecidableEq, Repr

structure GameState where
  shapes : List Shape
  activeShape : Option Shape
  world : ℕ
  score : ℕ
  level : ℕ
  zoom : ℝ
  targetZoom : ℝ
  initialSize : ℝ
  currentSpeed : ℝ
  isGameOver : Bool
  mode : GameMode
  timeRemaining : Option ℝ
  isBossLevel : Bool

def createInitialState (viewportSize : ℝ) (mode : GameMode) : GameState :=
  let initialShape := createInitialShape viewportSize
  { shapes := [initialShape]
    activeShape := none
    world := 1
    score := 0
    level := 1
    zoom := getZoomForLevel 1
    targetZoom := getZoomForLevel 1
    initialSize := initialShape.size
    currentSpeed := MIN_GROWTH_SPEED
    isGameOver := false
    mode := mode
    timeRemaining := if mode = GameMode.TIME_ATTACK
      then some TIME_ATTACK_START_TIME else none
    isBossLevel := false }

/-- `generateRandomSpeed`; `rand` stands for the `Math.random()` draw in
[0, 1). -/
def generateRandomSpeed (rand : ℝ) : ℝ :=
  MIN_GROWTH_SPEED + rand * (MAX_GROWTH_SPEED - MIN_GROWTH_SPEED)

/-- `spawnActiveShape`.  `state.shapes[state.shapes.length - 1] ?? null` is
`List.getLast?`; the boss lookup `BOSS_SHAPES[state.score + 1]` is re-read
inside the boss branch exactly as in the source. -/
noncomputable def spawnActiveShape (state : GameState)
    (typePick colorPick : ℕ) (rand : ℝ) : GameState :=
  let lastShape := state.shapes.getLast?
  let isBossLevel := (BOSS_SHAPES (state.score + 1)).isSome
  let activeShape := createActiveShape state.level lastShape typePick colorPick
  let activeShape := match BOSS_SHAPES (state.score + 1) with
    | some bossConfig =>
        { activeShape with
          type := bossConfig.type
          color := if bossConfig.hueShift then Color.hex ("#ffffff")
            else activeShape.color }
    | none => activeShape
  let currentSpeed := generateRandomSpeed rand
  { state with
    activeShape := some activeShape
    currentSpeed := currentSpeed
    isBossLevel := isBossLevel }

/-- `getGrowthMultiplier`. -/
noncomputable def getGrowthMultiplier (pattern : GrowthPattern)
    (stackPositionInLevel : ℕ) : ℝ :=
  match pattern with
  | GrowthPattern.linear => 1
  | GrowthPattern.accelerating => 1 + (stackPositionInLevel : ℝ) * 0.25
  | GrowthPattern.wave =>
      1 + Real.sin (((stackPositionInLevel : ℝ) / (STACKS_PER_LEVEL : ℝ))
        * Real.pi) * 0.5

/-- JavaScript `%` on nonnegative reals (used for the boss hue cycle). -/
noncomputable def jsMod (a b : ℝ) : ℝ := a - b * (⌊a / b⌋ : ℤ)

/-- `updateActiveShape`.  `time` stands for `Date.now() / 1000`.  The
source's dead intermediate `updatedShape.size` is not materialized; the
returned shape carries the final size `baseSize + pulseOffset * 5 * dt`,
the rotation increment and the (boss) color, exactly as returned. -/
noncomputable def updateActiveShape (state : GameState) (dt : ℝ)
    (time : ℝ) : GameState :=
  match state.activeShape with
  | none => state
  | some active =>
    let mechanics := (getWorldMechanics state.world).getD DEFAULT_MECHANICS
    let stackPositionInLevel := state.score % STACKS_PER_LEVEL
    let growthPatternMultiplier :=
      getGrowthMultiplier mechanics.growthPattern stackPositionInLevel
    let bossData : ℝ × ℝ × ℝ :=
      if state.isBossLevel then
        match BOSS_SHAPES (state.score + 1) with
        | some bossConfig =>
          let bossMultiplier := bossConfig.growthSpeedMultiplier
          let bossRotationMultiplier := bossConfig.rotationSpeedMultiplier
          let pulseOffset :=
            if bossConfig.pulseEnabled then
              let pulseSpeed := 4 + (state.score : ℝ) * 0.1
              let pulseAmplitude := 5 + (state.score : ℝ) * 0.2
              Real.sin (time * pulseSpeed) * pulseAmplitude
            else 0
          let baseRotationSpeed :=
            (0.5 + min ((state.score : ℝ) * 0.05) 1.5) * bossRotationMultiplier
          let finalRotationSpeed :=
            if bossConfig.erraticRotationEnabled then
              let erraticFreq := 2 + (state.score : ℝ) * 0.05
              baseRotationSpeed * (1 + Real.sin (time * erraticFreq) * 0.5)
            else baseRotationSpeed
          (bossMultiplier, pulseOffset, finalRotationSpeed)
        | none => (1, 0, 0)
      else (1, 0, 0.5 + min ((state.score : ℝ) * 0.05) 1.5)
    let bossMultiplier := bossData.1
    let pulseOffset := bossData.2.1
    let finalRotationSpeed := bossData.2.2
    let difficultyMultiplier := 1 + (state.score : ℝ) * 0.05
    let growthIncrement :=
      (state.currentSpeed * difficultyMultiplier * growthPatternMultiplier
        * bossMultiplier) / state.zoom
    let color :=
      if state.isBossLevel then Color.hsl (jsMod (time * 100) 360)
      else active.color
    let baseSize := active.size + growthIncrement * dt
    let updatedShapeWithPulse : Shape :=
      { active with
        size := baseSize + pulseOffset * 5 * dt
        rotation := active.rotation + finalRotationSpeed * dt
        color := color }
    { state with activeShape := some updatedShapeWithPulse }

structure StackResult where
  state : GameState
  leveledUp : Bool
  newLevel : ℕ
  worldUp : Bool
  isPerfect : Bool

/-- `stackActiveShape`.  `state.shapes[state.shapes.length - 1]` is modelled
with `getLastD`; every state the game constructs keeps `shapes` nonempty, so
the default is never hit there. -/
noncomputable def stackActiveShape (state : GameState) : StackResult :=
  match state.activeShape with
  | none =>
    { state := state
      leveledUp := false
      newLevel := state.level
      worldUp := false
      isPerfect := false }
  | some active =>
    let lastShape := state.shapes.getLastD default
    let sizeRatio := active.size / lastShape.size
    let isPerfect : Bool := decide (sizeRatio > 0.95)
    let newShapes := state.shapes ++ [{ active with opacity := 1 }]
    let newScore := state.score + 1
    let newTimeRemaining : Option ℝ :=
      match state.timeRemaining with
      | some t =>
        if state.mode = GameMode.TIME_ATTACK ∧ isPerfect = true then
          some (t + PERFECT_STACK_TIME_BONUS)
        else some t
      | none => none
    let totalLevels := newScore / STACKS_PER_LEVEL
    let newWorld := totalLevels / LEVELS_PER_WORLD + 1
    let newLevel := totalLevels % LEVELS_PER_WORLD + 1
    let worldUp : Bool := decide (newWorld > state.world)
    let leveledUp : Bool :=
      worldUp || (decide (newLevel > state.level) && !worldUp)
    let finalShapes :=
      if worldUp = true then
        match state.shapes.head? with
        | some firstShape => [{ firstShape with opacity := 1 }]
        | none => []
      else newShapes
    let newTargetZoom := getZoomForLevel newLevel
    { state :=
      { state with
        shapes := finalShapes
        activeShape := none
        world := newWorld
        score := newScore
        level := newLevel
        targetZoom := newTargetZoom
        timeRemaining := newTimeRemaining }
      leveledUp := leveledUp
      newLevel := newLevel
      worldUp := worldUp
      isPerfect := isPerfect }

/-- `setGameOver`. -/
def setGameOver (state : GameState) : GameState :=
  { state with isGameOver := true }

/-- `handleMiss`. -/
def handleMiss (state : GameState) : GameState :=
  if state.mode = GameMode.ZEN then
    match state.activeShape with
    | none => state
    | some active =>
      { state with
        activeShape := some
          { active with size := (state.shapes.getLastD default).size * 0.05 } }
  else setGameOver state

/-- `updateTimer`. -/
noncomputable def updateTimer (state : GameState) (dt : ℝ) : GameState :=
  if state.mode ≠ GameMode.TIME_ATTACK then state
  else match state.timeRemaining with
  | none => state
  | some t =>
    let newTime := max 0 (t - dt)
    let isGameOver : Bool := decide (newTime ≤ 0)
    { state with
      timeRemaining := some newTime
      isGameOver := isGameOver || state.isGameOver }

/-- `restartActiveShape`. -/
noncomputable def restartActiveShape (state : GameState)
    (typePick colorPick : ℕ) (rand : ℝ) : GameState :=
  match state.activeShape with
  | none => state
  | some _ =>
    let lastShape := state.shapes.getLast?
    let newActiveShape :=
      createActiveShape state.level lastShape typePick colorPick
    let currentSpeed := generateRandomSpeed rand
    { state with
      activeShape := some newActiveShape
      currentSpeed := currentSpeed }

/-- `undoLastStack`. -/
def undoLastStack (state : GameState) : GameState :=
  if state.mode ≠ GameMode.ZEN ∨ state.shapes.length ≤ 1 then state
  else
    let newShapes := state.shapes.dropLast
    let newScore := state.score - 1
    let totalLevels := newScore / STACKS_PER_LEVEL
    let newWorld := totalLevels / LEVELS_PER_WORLD + 1
    let newLevel := totalLevels % LEVELS_PER_WORLD + 1
    let newTargetZoom := getZoomForLevel newLevel
    { state with
      shapes := newShapes
      score := newScore
      world := newWorld
      level := newLevel
      targetZoom := newTargetZoom
      activeShape := none }

/-- `updateZoom` (default `lerpSpeed` is 2 at call sites). -/
noncomputable def updateZoom (state : GameState) (dt : ℝ)
    (lerpSpeed : ℝ) : GameState :=
  if |state.zoom - state.targetZoom| ≤ 0.001 then
    { state with zoom := state.targetZoom }
  else
    let newZoom :=
      state.zoom + (state.targetZoom - state.zoom) * lerpSpeed * dt
    { state with zoom := newZoom }

/-- `updateShapeOpacities`. -/
noncomputable def updateShapeOpacities (state : GameState) : GameState :=
  { state with
    shapes := state.shapes.mapIdx (fun index shape =>
      let age := state.shapes.length - 1 - index
      if age > 10 then { shape with opacity := max 0 (shape.opacity - 0.005) }
      else shape) }

/-- `updateShapeRotations`. -/
noncomputable def updateShapeRotations (state : GameState) : GameState :=
  { state with
    shapes := state.shapes.mapIdx (fun index shape =>
      { shape with
        rotation := shape.rotation
          + 0.005 * (if index % 2 = 0 then (1 : ℝ) else -1) }) }

/-! ### Claim C1 — world-mechanics fallback -/

theorem WORLD_MECHANICS_none_beyond (w : ℕ) (hw : 6 < w) :
    WORLD_MECHANICS w = none := by
  match w, hw with
  | (n + 7), _ => rfl

/-- C1: for worlds beyond the table, `getWorldMechanics` actually falls back
to `WORLD_MECHANICS[5]` (since `Object.keys(WORLD_MECHANICS).length - 1 = 5`),
not to the last defined entry `WORLD_MECHANICS[6]`; the two entries differ on
`eclipseEffect`, so the claimed behaviour fails for every world > 6. -/
theorem getWorldMechanics_beyond_table (w : ℕ) (hw : 6 < w) :
    getWorldMechanics w = WORLD_MECHANICS 5 ∧
    (WORLD_MECHANICS 5).map (fun m => m.eclipseEffect) = some false ∧
    (WORLD_MECHANICS 6).map (fun m => m.eclipseEffect) = some true := by
  refine ⟨?_, rfl, rfl⟩
  unfold getWorldMechanics
  rw [WORLD_MECHANICS_none_beyond w hw]
  rfl

theorem getWorldMechanics_beyond_table_witness :
    6 < 7 ∧ getWorldMechanics 7 = WORLD_MECHANICS 5 :=
  ⟨by norm_num, (getWorldMechanics_beyond_table 7 (by norm_num)).1⟩

/-! ### Claim C3 — transitions with no active shape -/

/-- C3 (counterexample): in CLASSIC mode, `handleMiss` on a state with no
active shape is not a no-op: it flips `isGameOver` to true. -/
theorem handleMiss_no_active_not_noop :
    handleMiss (createInitialState 800 GameMode.CLASSIC)
      ≠ createInitialState 800 GameMode.CLASSIC := by
  intro h
  have hgo : (handleMiss (createInitialState 800 GameMode.CLASSIC)).isGameOver
      = (createInitialState 800 GameMode.CLASSIC).isGameOver := by rw [h]
  simp [handleMiss, createInitialState, setGameOver] at hgo

/-- C3 (amended): with no active shape, `stackActiveShape` is a no-op with
neutral flags in every mode, and `handleMiss` is a no-op in ZEN mode only;
in the other modes it still sets `isGameOver` (leaving everything else
unchanged). -/
theorem no_active_shape_transitions (s : GameState)
    (h : s.activeShape = none) :
    stackActiveShape s =
      { state := s, leveledUp := false, newLevel := s.level,
        worldUp := false, isPerfect := false } ∧
    (s.mode = GameMode.ZEN → handleMiss s = s) ∧
    (s.mode ≠ GameMode.ZEN → handleMiss s = setGameOver s) := by
  refine ⟨?_, ?_, ?_⟩
  · unfold stackActiveShape
    rw [h]
  · intro hm
    unfold handleMiss
    rw [if_pos hm, h]
  · intro hm
    unfold handleMiss
    rw [if_neg hm]

theorem no_active_shape_transitions_witness :
    (createInitialState 800 GameMode.ZEN).activeShape = none ∧
    handleMiss (createInitialState 800 GameMode.ZEN)
      = createInitialState 800 GameMode.ZEN :=
  ⟨rfl, (no_active_shape_transitions (createInitialState 800 GameMode.ZEN)
    rfl).2.1 rfl⟩

/-! ### Claim C4 — transitions after game over -/

/-- C4 (counterexample): a state with `isGameOver = true` and an active
shape still has its score mutated by `stackActiveShape`; the `isGameOver`
guard is not enforced by the transition functions. -/
theorem stackActiveShape_mutates_after_game_over :
    ({ createInitialState 800 GameMode.CLASSIC with
        isGameOver := true, activeShape := some default } : GameState).isGameOver
      = true ∧
    (stackActiveShape
      { createInitialState 800 GameMode.CLASSIC with
        isGameOver := true, activeShape := some default }).state.score
      ≠ ({ createInitialState 800 GameMode.CLASSIC with
        isGameOver := true, activeShape := some default } : GameState).score := by
  refine ⟨rfl, ?_⟩
  simp [stackActiveShape, createInitialState]

/-- C4 (amended): after game over, the transitions `spawnActiveShape`,
`updateActiveShape`, `handleMiss` and `updateTimer` leave score, level and
the shapes sequence unchanged; the remaining transitions of the claim
(`stackActiveShape`, `undoLastStack`, `updateShapeOpacities`,
`updateShapeRotations`) can still mutate them. -/
theorem game_over_preserving_transitions (s : GameState)
    (typePick colorPick : ℕ) (rand dt time : ℝ)
    (hgo : s.isGameOver = true) :
    ((spawnActiveShape s typePick colorPick rand).score = s.score ∧
      (spawnActiveShape s typePick colorPick rand).level = s.level ∧
      (spawnActiveShape s typePick colorPick rand).shapes = s.shapes) ∧
    ((updateActiveShape s dt time).score = s.score ∧
      (updateActiveShape s dt time).level = s.level ∧
      (updateActiveShape s dt time).shapes = s.shapes) ∧
    ((handleMiss s).score = s.score ∧
      (handleMiss s).level = s.level ∧
      (handleMiss s).shapes = s.shapes) ∧
    ((updateTimer s dt).score = s.score ∧
      (updateTimer s dt).level = s.level ∧
      (updateTimer s dt).shapes = s.shapes) := by
  refine ⟨⟨rfl, rfl, rfl⟩, ?_, ?_, ?_⟩
  · cases h : s.activeShape <;> simp [updateActiveShape, h]
  · unfold handleMiss setGameOver
    split_ifs with hm
    · cases h : s.activeShape <;> simp [h]
    · exact ⟨rfl, rfl, rfl⟩
  · unfold updateTimer
    split_ifs with hm
    · exact ⟨rfl, rfl, rfl⟩
    · cases h : s.timeRemaining <;> simp [h]

theorem game_over_preserving_transitions_witness :
    ({ createInitialState 800 GameMode.CLASSIC with
        isGameOver := true } : GameState).isGameOver = true ∧
    (handleMiss { createInitialState 800 GameMode.CLASSIC with
        isGameOver := true }).score
      = ({ createInitialState 800 GameMode.CLASSIC with
        isGameOver := true } : GameState).score :=
  ⟨rfl, (game_over_preserving_transitions
    { createInitialState 800 GameMode.CLASSIC with isGameOver := true }
    0 0 0 0 0 rfl).2.2.1.1⟩

/-! ### Claim C9 — ZEN miss resets only the active shape's size -/

/-- C9: in ZEN mode, a miss with an active shape replaces only that shape's
size with `0.05 ×` the top-of-stack shape's size; every other field of the
state (including `isGameOver`, the stack, score, level, world and the
timer) and of the active shape (type, color, rotation, opacity) is
unchanged. -/
theorem handleMiss_zen_resets_size (s : GameState) (active : Shape)
    (hm : s.mode = GameMode.ZEN) (ha : s.activeShape = some active)
    (hne : s.shapes ≠ []) :
    handleMiss s =
      { s with
        activeShape :=
          some { active with size := (s.shapes.getLastD default).size * 0.05 } }
    := by
  unfold handleMiss
  rw [if_pos hm, ha]

theorem handleMiss_zen_resets_size_witness :
    (handleMiss { createInitialState 800 GameMode.ZEN with
        activeShape := some default }).activeShape
      = some { (default : Shape) with
          size :=
            (({ createInitialState 800 GameMode.ZEN with
                activeShape := some default } : GameState).shapes.getLastD
              default).size * 0.05 } := by
  rw [handleMiss_zen_resets_size _ default rfl rfl (by simp [createInitialState])]

/-! ### Claim C10 — boss spawning -/

/-- C10: `spawnActiveShape` sets `isBossLevel` exactly when the boss table
has an entry at `score + 1`, independently of the mode, and a boss spawn
takes the configured type and (when `hueShift` is set) the white color. -/
theorem spawnActiveShape_boss (s : GameState) (typePick colorPick : ℕ)
    (rand : ℝ) :
    ((spawnActiveShape s typePick colorPick rand).isBossLevel
      = (BOSS_SHAPES (s.score + 1)).isSome) ∧
    (∀ m : GameMode,
      (spawnActiveShape { s with mode := m } typePick colorPick rand).isBossLevel
        = (BOSS_SHAPES (s.score + 1)).isSome) ∧
    (∀ cfg, BOSS_SHAPES (s.score + 1) = some cfg →
      ∃ a, (spawnActiveShape s typePick colorPick rand).activeShape = some a ∧
        a.type = cfg.type ∧
        (cfg.hueShift = true → a.color = Color.hex ("#ffffff"))) := by
  refine ⟨rfl, fun m => rfl, fun cfg hcfg => ?_⟩
  unfold spawnActiveShape
  rw [hcfg]
  refine ⟨_, rfl, rfl, fun hh => ?_⟩
  simp [hh]

theorem spawnActiveShape_boss_witness :
    ∃ a, (spawnActiveShape
        { createInitialState 800 GameMode.ZEN with score := 4 }
        0 0 0).activeShape = some a ∧
      a.type = ShapeType.hexagon ∧ a.color = Color.hex ("#ffffff") := by
  obtain ⟨a, ha, ht, hc⟩ :=
    (spawnActiveShape_boss
      { createInitialState 800 GameMode.ZEN with score := 4 } 0 0 0).2.2 _ rfl
  exact ⟨a, ha, ht, hc rfl⟩

/-! ### Claim C2 — level and world are a pure function of score -/

/-- States reachable from `createInitialState` by `spawnActiveShape` and
`stackActiveShape` calls (in particular, by alternating them). -/
inductive SpawnStackReach : GameState → Prop where
  | init (viewportSize : ℝ) (mode : GameMode) :
      SpawnStackReach (createInitialState viewportSize mode)
  | spawn (s : GameState) (typePick colorPick : ℕ) (rand : ℝ) :
      SpawnStackReach s → SpawnStackReach (spawnActiveShape s typePick colorPick rand)
  | stack (s : GameState) :
      SpawnStackReach s → SpawnStackReach (stackActiveShape s).state

/-- C2: every state reachable by spawn/commit calls from a fresh game has
`level = ((score / STACKS_PER_LEVEL) mod LEVELS_PER_WORLD) + 1` and
`world = ((score / STACKS_PER_LEVEL) / LEVELS_PER_WORLD) + 1`. -/
theorem level_world_pure_function_of_score (s : GameState)
    (hs : SpawnStackReach s) :
    s.level = s.score / STACKS_PER_LEVEL % LEVELS_PER_WORLD + 1 ∧
    s.world = s.score / STACKS_PER_LEVEL / LEVELS_PER_WORLD + 1 := by
  induction hs with
  | init v m =>
    refine ⟨?_, ?_⟩ <;>
      simp [createInitialState, STACKS_PER_LEVEL, LEVELS_PER_WORLD]
  | spawn s tp cp rand _ ih => exact ih
  | stack s _ ih =>
    cases h : s.activeShape with
    | none =>
      unfold stackActiveShape
      rw [h]
      exact ih
    | some a =>
      unfold stackActiveShape
      rw [h]
      exact ⟨rfl, rfl⟩

theorem level_world_pure_function_of_score_witness :
    (createInitialState 800 GameMode.CLASSIC).level
        = (createInitialState 800 GameMode.CLASSIC).score
          / STACKS_PER_LEVEL % LEVELS_PER_WORLD + 1 ∧
    (createInitialState 800 GameMode.CLASSIC).world
        = (createInitialState 800 GameMode.CLASSIC).score
          / STACKS_PER_LEVEL / LEVELS_PER_WORLD + 1 :=
  level_world_pure_function_of_score _
    (SpawnStackReach.init 800 GameMode.CLASSIC)

/-! ### Claim C5 — the world counter never decreases -/

/-- One application of any exported state transition, with arbitrary
parameters. -/
inductive Step : GameState → GameState → Prop where
  | spawn (s : GameState) (typePick colorPick : ℕ) (rand : ℝ) :
      Step s (spawnActiveShape s typePick colorPick rand)
  | grow (s : GameState) (dt time : ℝ) : Step s (updateActiveShape s dt time)
  | stack (s : GameState) : Step s (stackActiveShape s).state
  | miss (s : GameState) : Step s (handleMiss s)
  | timer (s : GameState) (dt : ℝ) : Step s (updateTimer s dt)
  | restart (s : GameState) (typePick colorPick : ℕ) (rand : ℝ) :
      Step s (restartActiveShape s typePick colorPick rand)
  | undo (s : GameState) : Step s (undoLastStack s)
  | gameOver (s : GameState) : Step s (setGameOver s)
  | zoomStep (s : GameState) (dt lerpSpeed : ℝ) :
      Step s (updateZoom s dt lerpSpeed)
  | opacities (s : GameState) : Step s (updateShapeOpacities s)
  | rotations (s : GameState) : Step s (updateShapeRotations s)

def Reachable (s : GameState) : Prop :=
  ∃ viewportSize mode,
    Relation.ReflTransGen Step (createInitialState viewportSize mode) s

/-- The inductive invariant tying world, score and the stack length
together on reachable states. -/
def WorldScoreInv (s : GameState) : Prop :=
  s.world = s.score / (STACKS_PER_LEVEL * LEVELS_PER_WORLD) + 1 ∧
  s.shapes.length + (STACKS_PER_LEVEL * LEVELS_PER_WORLD) * (s.world - 1)
    = s.score + 1

theorem worldScoreInv_init (viewportSize : ℝ) (mode : GameMode) :
    WorldScoreInv (createInitialState viewportSize mode) := by
  constructor <;>
    simp [createInitialState, WorldScoreInv, STACKS_PER_LEVEL, LEVELS_PER_WORLD]

theorem worldScoreInv_shapes_ne_nil (s : GameState)
    (h : WorldScoreInv s) : s.shapes ≠ [] := by
  obtain ⟨h1, h2⟩ := h
  intro he
  rw [he] at h2
  simp [STACKS_PER_LEVEL, LEVELS_PER_WORLD] at h1 h2
  have hle := Nat.div_mul_le_self s.score 15
  omega

theorem worldScoreInv_step (s s' : GameState) (h : WorldScoreInv s)
    (hstep : Step s s') : WorldScoreInv s' := by
  have hne := worldScoreInv_shapes_ne_nil s h
  obtain ⟨h1, h2⟩ := h
  cases hstep with
  | spawn tp cp rand => exact ⟨h1, h2⟩
  | grow dt time =>
    cases hA : s.activeShape with
    | none => unfold updateActiveShape; rw [hA]; exact ⟨h1, h2⟩
    | some a => unfold updateActiveShape; rw [hA]; exact ⟨h1, h2⟩
  | stack =>
    cases hA : s.activeShape with
    | none => unfold stackActiveShape; rw [hA]; exact ⟨h1, h2⟩
    | some a =>
      obtain ⟨x, xs, hxs⟩ := List.exists_cons_of_ne_nil hne
      rw [hxs] at h2
      simp only [STACKS_PER_LEVEL, LEVELS_PER_WORLD, List.length_cons]
        at h1 h2
      unfold stackActiveShape
      rw [hA, hxs]
      refine ⟨?_, ?_⟩
      · simp only [STACKS_PER_LEVEL, LEVELS_PER_WORLD,
          Nat.div_div_eq_div_mul]
      · simp only [STACKS_PER_LEVEL, LEVELS_PER_WORLD, gt_iff_lt,
          decide_eq_true_eq, List.head?_cons]
        split_ifs with hw
        · simp only [List.length_cons, List.length_nil]
          omega
        · simp only [List.length_append, List.length_cons, List.length_nil]
          omega
  | miss =>
    unfold handleMiss setGameOver
    split_ifs with hm
    · cases hA : s.activeShape with
      | none => exact ⟨h1, h2⟩
      | some a => exact ⟨h1, h2⟩
    · exact ⟨h1, h2⟩
  | timer dt =>
    unfold updateTimer
    split_ifs with hm
    · exact ⟨h1, h2⟩
    · cases hT : s.timeRemaining with
      | none => exact ⟨h1, h2⟩
      | some t => exact ⟨h1, h2⟩
  | restart tp cp rand =>
    cases hA : s.activeShape with
    | none => unfold restartActiveShape; rw [hA]; exact ⟨h1, h2⟩
    | some a => unfold restartActiveShape; rw [hA]; exact ⟨h1, h2⟩
  | undo =>
    unfold undoLastStack
    split_ifs with hm
    · exact ⟨h1, h2⟩
    · push_neg at hm
      obtain ⟨hzen, hlen⟩ := hm
      simp only [STACKS_PER_LEVEL, LEVELS_PER_WORLD] at h1 h2
      refine ⟨?_, ?_⟩
      · simp only [STACKS_PER_LEVEL, LEVELS_PER_WORLD,
          Nat.div_div_eq_div_mul]
      · simp only [STACKS_PER_LEVEL, LEVELS_PER_WORLD,
          List.length_dropLast, Nat.div_div_eq_div_mul]
        omega
  | gameOver => exact ⟨h1, h2⟩
  | zoomStep dt lerpSpeed =>
    unfold updateZoom
    split_ifs with hz
    · exact ⟨h1, h2⟩
    · exact ⟨h1, h2⟩
  | opacities =>
    unfold updateShapeOpacities
    refine ⟨h1, ?_⟩
    simpa using h2
  | rotations =>
    unfold updateShapeRotations
    refine ⟨h1, ?_⟩
    simpa using h2

theorem reachable_worldScoreInv (s : GameState) (hr : Reachable s) :
    WorldScoreInv s := by
  obtain ⟨v, m, hgen⟩ := hr
  induction hgen with
  | refl => exact worldScoreInv_init v m
  | tail _ hstep ih => exact worldScoreInv_step _ _ ih hstep

/-- C5: along any reachable state, no exported transition (including
`undoLastStack` in ZEN mode) ever decreases the `world` counter. -/
theorem world_never_decreases (s s' : GameState) (hr : Reachable s)
    (hstep : Step s s') : s.world ≤ s'.world := by
  have hinv := reachable_worldScoreInv s hr
  have hne := worldScoreInv_shapes_ne_nil s hinv
  obtain ⟨h1, h2⟩ := hinv
  cases hstep with
  | spawn tp cp rand => exact le_refl _
  | grow dt time =>
    cases hA : s.activeShape with
    | none => unfold updateActiveShape; rw [hA]
    | some a => unfold updateActiveShape; rw [hA]
  | stack =>
    cases hA : s.activeShape with
    | none => unfold stackActiveShape; rw [hA]
    | some a =>
      unfold stackActiveShape
      rw [hA]
      simp only [STACKS_PER_LEVEL, LEVELS_PER_WORLD] at h1 ⊢
      omega
  | miss =>
    unfold handleMiss setGameOver
    split_ifs with hm
    · cases hA : s.activeShape with
      | none => exact le_refl _
      | some a => exact le_refl _
    · exact le_refl _
  | timer dt =>
    unfold updateTimer
    split_ifs with hm
    · exact le_refl _
    · cases hT : s.timeRemaining with
      | none => exact le_refl _
      | some t => exact le_refl _
  | restart tp cp rand =>
    cases hA : s.activeShape with
    | none => unfold restartActiveShape; rw [hA]
    | some a => unfold restartActiveShape; rw [hA]
  | undo =>
    unfold undoLastStack
    split_ifs with hm
    · exact le_refl _
    · push_neg at hm
      obtain ⟨hzen, hlen⟩ := hm
      simp only [STACKS_PER_LEVEL, LEVELS_PER_WORLD] at h1 h2 ⊢
      omega
  | gameOver => exact le_refl _
  | zoomStep dt lerpSpeed =>
    unfold updateZoom
    split_ifs with hz
    · exact le_refl _
    · exact le_refl _
  | opacities => exact le_refl _
  | rotations => exact le_refl _

theorem world_never_decreases_witness :
    (createInitialState 800 GameMode.CLASSIC).world
      ≤ (setGameOver (createInitialState 800 GameMode.CLASSIC)).world :=
  world_never_decreases _ _
    ⟨800, GameMode.CLASSIC, Relation.ReflTransGen.refl⟩
    (Step.gameOver (createInitialState 800 GameMode.CLASSIC))

/-! ### Claim C6 — zoom converges to the target -/

theorem updateZoom_targetZoom (s : GameState) (dt lerpSpeed : ℝ) :
    (updateZoom s dt lerpSpeed).targetZoom = s.targetZoom := by
  unfold updateZoom
  split_ifs <;> rfl

theorem updateZoom_zoom (s : GameState) (dt lerpSpeed : ℝ) :
    (updateZoom s dt lerpSpeed).zoom =
      if |s.zoom - s.targetZoom| ≤ 0.001 then s.targetZoom
      else s.zoom + (s.targetZoom - s.zoom) * lerpSpeed * dt := by
  unfold updateZoom
  split_ifs <;> rfl

/-- C6: with `0 < lerpSpeed·dt < 1` fixed, iterating `updateZoom` reaches
`targetZoom` exactly after finitely many ticks (and stays there), the gap
to the target shrinks monotonically and never changes sign (no overshoot),
and any state already within 0.001 of the target snaps to it exactly on
the next call. -/
theorem updateZoom_converges (s : GameState) (dt lerpSpeed : ℝ)
    (hk0 : 0 < lerpSpeed * dt) (hk1 : lerpSpeed * dt < 1) :
    (∃ N : ℕ, ∀ m : ℕ, N ≤ m →
      ((fun st => updateZoom st dt lerpSpeed)^[m] s).zoom = s.targetZoom) ∧
    (∀ n : ℕ,
      |s.targetZoom - ((fun st => updateZoom st dt lerpSpeed)^[n + 1] s).zoom|
        ≤ |s.targetZoom - ((fun st => updateZoom st dt lerpSpeed)^[n] s).zoom|
      ∧ 0 ≤ (s.targetZoom
            - ((fun st => updateZoom st dt lerpSpeed)^[n + 1] s).zoom)
          * (s.targetZoom
            - ((fun st => updateZoom st dt lerpSpeed)^[n] s).zoom)) ∧
    (∀ st : GameState, |st.zoom - st.targetZoom| ≤ 0.001 →
      (updateZoom st dt lerpSpeed).zoom = st.targetZoom) := by
  set f : GameState → GameState := fun st => updateZoom st dt lerpSpeed with hf
  set k : ℝ := lerpSpeed * dt with hkdef
  set g : ℕ → ℝ := fun n => s.targetZoom - (f^[n] s).zoom with hg
  have htar : ∀ n, (f^[n] s).targetZoom = s.targetZoom := by
    intro n
    induction n with
    | zero => rfl
    | succ n ih =>
      rw [Function.iterate_succ_apply', hf, updateZoom_targetZoom, ih]
  have key : ∀ n, (g (n + 1) = 0 ∧ |g n| ≤ 0.001) ∨ g (n + 1) = g n * (1 - k) := by
    intro n
    have hz : (f^[n + 1] s).zoom =
        if |(f^[n] s).zoom - (f^[n] s).targetZoom| ≤ 0.001
        then (f^[n] s).targetZoom
        else (f^[n] s).zoom
          + ((f^[n] s).targetZoom - (f^[n] s).zoom) * lerpSpeed * dt := by
      rw [Function.iterate_succ_apply']
      exact updateZoom_zoom _ _ _
    rw [htar n] at hz
    by_cases hsnap : |(f^[n] s).zoom - s.targetZoom| ≤ 0.001
    · left
      constructor
      · show s.targetZoom - (f^[n + 1] s).zoom = 0
        rw [hz, if_pos hsnap, sub_self]
      · show |s.targetZoom - (f^[n] s).zoom| ≤ 0.001
        rw [abs_sub_comm]
        exact hsnap
    · right
      show s.targetZoom - (f^[n + 1] s).zoom
        = (s.targetZoom - (f^[n] s).zoom) * (1 - k)
      rw [hz, if_neg hsnap, hkdef]
      ring
  have habs : ∀ n, |g (n + 1)| ≤ |g n| * (1 - k) := by
    intro n
    rcases key n with ⟨h0, _⟩ | heq
    · rw [h0, abs_zero]
      have := abs_nonneg (g n)
      nlinarith
    · rw [heq, abs_mul, abs_of_pos (by linarith : (0:ℝ) < 1 - k)]
  have hgeo : ∀ n, |g n| ≤ |g 0| * (1 - k) ^ n := by
    intro n
    induction n with
    | zero => simp
    | succ n ih =>
      calc |g (n + 1)| ≤ |g n| * (1 - k) := habs n
      _ ≤ (|g 0| * (1 - k) ^ n) * (1 - k) := by nlinarith
      _ = |g 0| * (1 - k) ^ (n + 1) := by ring
  have hstay : ∀ m, (f^[m] s).zoom = s.targetZoom →
      (f^[m + 1] s).zoom = s.targetZoom := by
    intro m hm
    rw [Function.iterate_succ_apply']
    show (updateZoom (f^[m] s) dt lerpSpeed).zoom = s.targetZoom
    rw [updateZoom_zoom, htar m, hm, if_pos (by norm_num)]
  refine ⟨?_, ?_, ?_⟩
  · obtain ⟨N, hN⟩ := exists_pow_lt_of_lt_one
      (x := 0.001 / (|g 0| + 1)) (y := 1 - k)
      (by positivity) (by linarith)
    have hsmall : |g N| ≤ 0.001 := by
      have h1 := hgeo N
      have h2 : |g 0| * (1 - k) ^ N ≤ |g 0| * (0.001 / (|g 0| + 1)) := by
        have := abs_nonneg (g 0)
        nlinarith [pow_nonneg (by linarith : (0:ℝ) ≤ 1 - k) N]
      have h3 : |g 0| * (0.001 / (|g 0| + 1)) ≤ 0.001 := by
        rw [div_eq_mul_inv]
        have hpos : (0:ℝ) < |g 0| + 1 := by positivity
        rw [mul_comm (0.001) (|g 0| + 1)⁻¹, ← mul_assoc]
        have : |g 0| * (|g 0| + 1)⁻¹ ≤ 1 := by
          rw [mul_inv_le_iff₀ hpos]
          linarith [abs_nonneg (g 0)]
        nlinarith
      linarith
    have hNs : (f^[N + 1] s).zoom = s.targetZoom := by
      have hcond : |(f^[N] s).zoom - s.targetZoom| ≤ 0.001 := by
        rw [abs_sub_comm]
        exact hsmall
      rw [Function.iterate_succ_apply']
      show (updateZoom (f^[N] s) dt lerpSpeed).zoom = s.targetZoom
      rw [updateZoom_zoom, htar N, if_pos hcond]
    refine ⟨N + 1, ?_⟩
    intro m hm
    induction m with
    | zero => omega
    | succ m ih =>
      rcases Nat.lt_or_ge (N + 1) (m + 1) with hlt | hge
      · exact hstay m (ih (by omega))
      · have : m + 1 = N + 1 := by omega
        rw [this]
        exact hNs
  · intro n
    constructor
    · calc |g (n + 1)| ≤ |g n| * (1 - k) := habs n
      _ ≤ |g n| := by nlinarith [abs_nonneg (g n)]
    · rcases key n with ⟨h0, _⟩ | heq
      · have h0' : s.targetZoom - (f^[n + 1] s).zoom = 0 := h0
        rw [h0', zero_mul]
      · have heq' : s.targetZoom - (f^[n + 1] s).zoom
            = (s.targetZoom - (f^[n] s).zoom) * (1 - k) := heq
        rw [heq']
        have hsq : (s.targetZoom - (f^[n] s).zoom) * (1 - k)
              * (s.targetZoom - (f^[n] s).zoom)
            = (s.targetZoom - (f^[n] s).zoom) ^ 2 * (1 - k) := by ring
        rw [hsq]
        nlinarith [sq_nonneg (s.targetZoom - (f^[n] s).zoom)]
  · intro st hst
    rw [updateZoom_zoom, if_pos hst]

theorem updateZoom_converges_witness :
    ((0:ℝ) < 2 * 0.25 ∧ (2 * 0.25 : ℝ) < 1) ∧
    ∃ N : ℕ, ∀ m : ℕ, N ≤ m →
      ((fun st => updateZoom st 0.25 2)^[m]
        (createInitialState 800 GameMode.CLASSIC)).zoom
        = (createInitialState 800 GameMode.CLASSIC).targetZoom :=
  ⟨⟨by norm_num, by norm_num⟩,
    (updateZoom_converges (createInitialState 800 GameMode.CLASSIC) 0.25 2
      (by norm_num) (by norm_num)).1⟩

/-! ### Geometry engine (src/utils/geometry.ts)

The boundary tests are embedded over ℝ as `Prop`s; the JavaScript `%`-free
numeric code maps directly onto real arithmetic.  The even-odd ray-casting
loop (`for i, j = ...; if (cond) inside = !inside`) becomes an XOR-fold
over the list of (current, previous) vertex pairs. -/

noncomputable def getRegularPolygonVertices (sides : ℕ) (size rotation : ℝ) :
    List Point :=
  (List.range sides).map (fun (i : ℕ) =>
    let radius := size / 2
    let angle :=
      ((i : ℝ) / (sides : ℝ)) * Real.pi * 2 - Real.pi / 2 + rotation
    ⟨Real.cos angle * radius, Real.sin angle * radius⟩)

noncomputable def getStarVertices (size rotation innerRatio : ℝ) :
    List Point :=
  (List.range 10).map (fun (i : ℕ) =>
    let radius := size / 2
    let innerRadius := radius * innerRatio
    let r := if i % 2 = 0 then radius else innerRadius
    let angle := ((i : ℝ) / 10) * Real.pi * 2 - Real.pi / 2 + rotation
    ⟨Real.cos angle * r, Real.sin angle * r⟩)

/-- The 2D rotation applied to explicit corner lists (`corners.map(...)`
in the source). -/
noncomputable def rotatePoint (rot : ℝ) (p : Point) : Point :=
  ⟨p.x * Real.cos rot - p.y * Real.sin rot,
   p.x * Real.sin rot + p.y * Real.cos rot⟩

noncomputable def getVertices (shape : Shape) : List Point :=
  let size := shape.size
  let rot := shape.rotation
  match shape.type with
  | ShapeType.circle =>
      (List.range 12).map (fun (i : ℕ) =>
        let angle := ((i : ℝ) / 12) * Real.pi * 2 + rot
        ⟨Real.cos angle * (size / 2), Real.sin angle * (size / 2)⟩)
  | ShapeType.square =>
      ([⟨-(size / 2), -(size / 2)⟩, ⟨size / 2, -(size / 2)⟩,
        ⟨size / 2, size / 2⟩, ⟨-(size / 2), size / 2⟩] : List Point).map
        (rotatePoint rot)
  | ShapeType.triangle => getRegularPolygonVertices 3 size rot
  | ShapeType.rectangle =>
      ([⟨-(size / 2), -(size * 0.6 / 2)⟩, ⟨size / 2, -(size * 0.6 / 2)⟩,
        ⟨size / 2, size * 0.6 / 2⟩, ⟨-(size / 2), size * 0.6 / 2⟩] :
        List Point).map (rotatePoint rot)
  | ShapeType.pentagon => getRegularPolygonVertices 5 size rot
  | ShapeType.hexagon => getRegularPolygonVertices 6 size rot
  | ShapeType.octagon => getRegularPolygonVertices 8 size rot
  | ShapeType.star => getStarVertices size rot 0.4
  | ShapeType.diamond =>
      ([⟨0, -(size * 0.7 / 2)⟩, ⟨size / 2, 0⟩,
        ⟨0, size * 0.7 / 2⟩, ⟨-(size / 2), 0⟩] : List Point).map
        (rotatePoint rot)

/-- One iteration's condition in the ray-casting loop, for the current
vertex `a` (`vertices[i]`) and previous vertex `b` (`vertices[j]`). -/
def rayCrosses (p a b : Point) : Prop :=
  (Xor' (a.y > p.y) (b.y > p.y)) ∧
    p.x < (b.x - a.x) * (p.y - a.y) / (b.y - a.y) + a.x

/-- The (current, previous) vertex pairs `(i, j)` traversed by the loop:
`(0, n-1), (1, 0), …, (n-1, n-2)`. -/
def edgePairs (vs : List Point) : List (Point × Point) :=
  match vs.getLast? with
  | none => []
  | some last => vs.zip (last :: vs.dropLast)

/-- The even-odd ray-cast: `inside` starts `false` and is toggled by each
crossing edge. -/
def rayCast (p : Point) (vertices : List Point) : Prop :=
  (edgePairs vertices).foldl
    (fun inside e => Xor' (rayCrosses p e.1 e.2) inside) False

/-- The shared body of the pentagon/hexagon/octagon/triangle branch of
`isPointInShape` (the source computes `sides` by a nested conditional on
the type and then runs this block). -/
noncomputable def regularPolygonContains (sides : ℕ)
    (size localX localY : ℝ) : Prop :=
  let radius := size / 2
  let inRadius := radius * Real.cos (Real.pi / (sides : ℝ))
  let dist := Real.sqrt (localX * localX + localY * localY)
  if radius + 0.5 < dist then False
  else if dist ≤ inRadius then True
  else rayCast ⟨localX, localY⟩ (getRegularPolygonVertices sides (size + 1.0) 0)

noncomputable def isPointInShape (point : Point) (shape : Shape) : Prop :=
  let size := shape.size
  let rot := shape.rotation
  let localX := point.x * Real.cos (-rot) - point.y * Real.sin (-rot)
  let localY := point.x * Real.sin (-rot) + point.y * Real.cos (-rot)
  match shape.type with
  | ShapeType.circle =>
      Real.sqrt (localX * localX + localY * localY) ≤ size / 2 + 0.5
  | ShapeType.square =>
      |localX| ≤ size / 2 + 0.5 ∧ |localY| ≤ size / 2 + 0.5
  | ShapeType.rectangle =>
      |localX| ≤ size / 2 + 0.5 ∧ |localY| ≤ size * 0.6 / 2 + 0.5
  | ShapeType.pentagon => regularPolygonContains 5 size localX localY
  | ShapeType.hexagon => regularPolygonContains 6 size localX localY
  | ShapeType.octagon => regularPolygonContains 8 size localX localY
  | ShapeType.triangle => regularPolygonContains 3 size localX localY
  | ShapeType.diamond =>
      -- In JS, a zero half-extent makes the quotient NaN (for a zero
      -- numerator) or Infinity, and the `<=` comparison is then false;
      -- with Lean's total real division (x / 0 = 0) that rejection has
      -- to be recorded explicitly.
      size / 2 ≠ 0 ∧ size * 0.7 / 2 ≠ 0 ∧
      |localX| / (size / 2) + |localY| / (size * 0.7 / 2) ≤ 1.05
  | ShapeType.star =>
      rayCast ⟨localX, localY⟩ (getStarVertices (size + 1.0) 0 0.4)

/-- `isContained`: every vertex of the child tests positive against the
parent's point-in-shape test. -/
noncomputable def isContained (child parent : Shape) : Prop :=
  ∀ v ∈ getVertices child, isPointInShape v parent

/-- `checkContainment` from src/core/gameState.ts. -/
noncomputable def checkContainment (state : GameState) : Prop :=
  match state.activeShape with
  | none => True
  | some active => isContained active (state.shapes.getLastD default)

/-! ### Ray-casting machinery

Generic infrastructure about the even-odd fold: XOR-lists, the cyclic
(current, previous) pairing, and orientation-independence of a single
edge test. -/

def zeroP : Point := ⟨0, 0⟩

noncomputable def smulP (t : ℝ) (p : Point) : Point := ⟨t * p.x, t * p.y⟩

noncomputable def addP (p q : Point) : Point := ⟨p.x + q.x, p.y + q.y⟩

/-- 2D cross product, the signed area spanned by two vectors. -/
noncomputable def cross2 (a b : Point) : ℝ := a.x * b.y - a.y * b.x

def listXor (l : List Prop) : Prop := l.foldr Xor' False

theorem listXor_nil : listXor [] ↔ False := Iff.rfl

theorem listXor_cons (q : Prop) (l : List Prop) :
    listXor (q :: l) ↔ Xor' q (listXor l) := Iff.rfl

theorem xor_congr {a a' b b' : Prop} (ha : a ↔ a') (hb : b ↔ b') :
    Xor' a b ↔ Xor' a' b' := by
  unfold Xor'
  tauto

theorem xor_false_right (a : Prop) : Xor' a False ↔ a := by
  unfold Xor'
  tauto

theorem xor_left_cancel (a b : Prop) : Xor' a (Xor' a b) ↔ b := by
  unfold Xor'
  tauto

theorem xor_assoc_iff (a b c : Prop) :
    Xor' (Xor' a b) c ↔ Xor' a (Xor' b c) := by
  unfold Xor'
  tauto

theorem xor_comm_iff (a b : Prop) : Xor' a b ↔ Xor' b a := by
  unfold Xor'
  tauto

theorem listXor_congr {l₁ l₂ : List Prop} (h : List.Forall₂ Iff l₁ l₂) :
    listXor l₁ ↔ listXor l₂ := by
  induction h with
  | nil => exact Iff.rfl
  | cons h _ ih => exact xor_congr h ih

/-- The `foldl` in `rayCast` computes the XOR of the per-edge conditions. -/
theorem foldl_xor_eq_listXor {α : Type} (f : α → Prop) (l : List α)
    (b : Prop) :
    (l.foldl (fun inside e => Xor' (f e) inside) b
      ↔ Xor' (listXor (l.map f)) b) := by
  induction l generalizing b with
  | nil =>
    simp only [List.foldl_nil, List.map_nil, listXor_nil]
    unfold Xor'
    tauto
  | cons a t ih =>
    simp only [List.foldl_cons, List.map_cons, listXor_cons]
    rw [ih (Xor' (f a) b)]
    unfold Xor'
    tauto

theorem rayCast_iff_listXor (p : Point) (vs : List Point) :
    rayCast p vs
      ↔ listXor ((edgePairs vs).map (fun e => rayCrosses p e.1 e.2)) := by
  unfold rayCast
  rw [foldl_xor_eq_listXor]
  exact xor_false_right _

theorem listXor_append_singleton (q : Prop) (l : List Prop) :
    listXor (l ++ [q]) ↔ Xor' q (listXor l) := by
  induction l with
  | nil => exact Iff.rfl
  | cons a t ih =>
    simp only [List.cons_append, listXor_cons]
    rw [ih]
    unfold Xor'
    tauto

theorem listXor_rotate (q : Prop) (l : List Prop) :
    listXor (q :: l) ↔ listXor (l ++ [q]) :=
  (listXor_cons q l).trans (listXor_append_singleton q l).symm

theorem listXor_map_xor {α : Type} (A B : α → Prop) (l : List α) :
    listXor (l.map (fun i => Xor' (A i) (B i)))
      ↔ Xor' (listXor (l.map A)) (listXor (l.map B)) := by
  induction l with
  | nil => simp [listXor, Xor']
  | cons a t ih =>
    simp only [List.map_cons, listXor_cons]
    rw [ih]
    unfold Xor'
    tauto

/-- A single edge test does not depend on the orientation of the edge. -/
theorem rayCrosses_symm (p a b : Point) :
    rayCrosses p a b ↔ rayCrosses p b a := by
  unfold rayCrosses
  constructor
  · rintro ⟨hstrad, hx⟩
    refine ⟨by rwa [xor_comm_iff] at hstrad, ?_⟩
    have hne : b.y - a.y ≠ 0 := by
      intro h
      rcases hstrad with ⟨h1, h2⟩ | ⟨h1, h2⟩ <;> exact h2 (by linarith)
    have hne' : a.y - b.y ≠ 0 := fun h => hne (by linarith)
    have heq : (b.x - a.x) * (p.y - a.y) / (b.y - a.y) + a.x
        = (a.x - b.x) * (p.y - b.y) / (a.y - b.y) + b.x := by
      field_simp
      ring
    rwa [heq] at hx
  · rintro ⟨hstrad, hx⟩
    refine ⟨by rwa [xor_comm_iff] at hstrad, ?_⟩
    have hne : a.y - b.y ≠ 0 := by
      intro h
      rcases hstrad with ⟨h1, h2⟩ | ⟨h1, h2⟩ <;> exact h2 (by linarith)
    have hne' : b.y - a.y ≠ 0 := fun h => hne (by linarith)
    have heq : (a.x - b.x) * (p.y - b.y) / (a.y - b.y) + b.x
        = (b.x - a.x) * (p.y - a.y) / (b.y - a.y) + a.x := by
      field_simp
      ring
    rwa [heq] at hx

/-! ### Fan decomposition of the even-odd ray cast

For a polygon listed as `(range m).map vtx`, the per-edge XOR equals the
XOR of the parities of the fan triangles `(0, vtx (i-1), vtx i)`: the two
copies of each spoke cancel. -/

def cycPrev (m i : ℕ) : ℕ := if i = 0 then m - 1 else i - 1

/-- Canonical parity expression for a triangle's three edges. -/
def triXor (p a b c : Point) : Prop :=
  Xor' (rayCrosses p a b) (Xor' (rayCrosses p b c) (rayCrosses p c a))

theorem map_cycPrev_range (k : ℕ) :
    (List.range (k + 1)).map (cycPrev (k + 1)) = k :: List.range k := by
  rw [List.range_succ_eq_map, List.map_cons, List.map_map]
  have h0 : cycPrev (k + 1) 0 = k := by simp [cycPrev]
  have hs : cycPrev (k + 1) ∘ Nat.succ = id := by
    funext i
    simp [cycPrev]
  rw [h0, hs, List.map_id]

theorem edgePairs_map_range (k : ℕ) (vtx : ℕ → Point) :
    edgePairs ((List.range (k + 1)).map vtx)
      = (List.range (k + 1)).map
          (fun i => (vtx i, vtx (cycPrev (k + 1) i))) := by
  unfold edgePairs
  have h1 : ((List.range (k + 1)).map vtx).getLast? = some (vtx k) := by
    rw [List.range_succ, List.map_append]
    exact List.getLast?_concat _
  rw [h1]
  have h2 : ((List.range (k + 1)).map vtx).dropLast
      = (List.range k).map vtx := by
    rw [List.range_succ, List.map_append]
    exact List.dropLast_concat
  rw [h2]
  show ((List.range (k + 1)).map vtx).zip
      (vtx k :: (List.range k).map vtx)
    = (List.range (k + 1)).map (fun i => (vtx i, vtx (cycPrev (k + 1) i)))
  have h3 : vtx k :: (List.range k).map vtx
      = (List.range (k + 1)).map (fun i => vtx (cycPrev (k + 1) i)) := by
    have : (List.range (k + 1)).map (fun i => vtx (cycPrev (k + 1) i))
        = ((List.range (k + 1)).map (cycPrev (k + 1))).map vtx := by
      rw [List.map_map]
      rfl
    rw [this, map_cycPrev_range, List.map_cons]
  rw [h3, List.zip_map' vtx (fun i => vtx (cycPrev (k + 1) i))]

theorem listXor_map_comp_cycPrev (k : ℕ) (S : ℕ → Prop) :
    listXor ((List.range (k + 1)).map (fun i => S (cycPrev (k + 1) i)))
      ↔ listXor ((List.range (k + 1)).map S) := by
  have h1 : (List.range (k + 1)).map (fun i => S (cycPrev (k + 1) i))
      = S k :: (List.range k).map S := by
    have : (List.range (k + 1)).map (fun i => S (cycPrev (k + 1) i))
        = ((List.range (k + 1)).map (cycPrev (k + 1))).map S := by
      rw [List.map_map]
      rfl
    rw [this, map_cycPrev_range, List.map_cons]
  rw [h1, List.range_succ, List.map_append]
  exact listXor_rotate _ _

/-- Gluing: the polygon's ray cast is the XOR of the fan triangles'
parities. -/
theorem rayCast_eq_fanXor (p : Point) (k : ℕ) (vtx : ℕ → Point) :
    rayCast p ((List.range (k + 1)).map vtx)
      ↔ listXor ((List.range (k + 1)).map
          (fun i => triXor p zeroP (vtx (cycPrev (k + 1) i)) (vtx i))) := by
  set m := k + 1 with hm
  rw [rayCast_iff_listXor, edgePairs_map_range, List.map_map]
  have htri : ∀ i, triXor p zeroP (vtx (cycPrev m i)) (vtx i)
      ↔ Xor' (Xor' (rayCrosses p zeroP (vtx i))
              (rayCrosses p zeroP (vtx (cycPrev m i))))
          (rayCrosses p (vtx i) (vtx (cycPrev m i))) := by
    intro i
    unfold triXor
    rw [rayCrosses_symm p (vtx (cycPrev m i)) (vtx i),
      rayCrosses_symm p (vtx i) zeroP]
    unfold Xor'
    tauto
  have hcongr : listXor ((List.range m).map
        (fun i => triXor p zeroP (vtx (cycPrev m i)) (vtx i)))
      ↔ listXor ((List.range m).map
          (fun i => Xor' (Xor' (rayCrosses p zeroP (vtx i))
              (rayCrosses p zeroP (vtx (cycPrev m i))))
            (rayCrosses p (vtx i) (vtx (cycPrev m i))))) := by
    apply listXor_congr
    rw [List.forall₂_map_left_iff, List.forall₂_map_right_iff]
    exact List.forall₂_same.mpr (fun i _ => htri i)
  rw [hcongr, listXor_map_xor
    (fun i => Xor' (rayCrosses p zeroP (vtx i))
      (rayCrosses p zeroP (vtx (cycPrev m i))))
    (fun i => rayCrosses p (vtx i) (vtx (cycPrev m i)))]
  rw [listXor_map_xor (fun i => rayCrosses p zeroP (vtx i))
    (fun i => rayCrosses p zeroP (vtx (cycPrev m i)))]
  rw [listXor_map_comp_cycPrev k (fun i => rayCrosses p zeroP (vtx i))]
  unfold Xor'
  tauto

/-! ### Single-triangle parity lemmas

`rayCrosses` against one edge is characterized by the sign of a cross
product whenever the edge straddles the horizontal line through the query
point; a triangle's parity is then settled by barycentric sign analysis. -/

noncomputable def subP (p q : Point) : Point := ⟨p.x - q.x, p.y - q.y⟩

theorem rayCrosses_not_of_same_side (p P Q : Point)
    (h : P.y > p.y ↔ Q.y > p.y) : ¬ rayCrosses p P Q := by
  unfold rayCrosses Xor'
  tauto

theorem pos_of_div_pos {c d : ℝ} (hd : 0 < d) (h : 0 < c / d) : 0 < c := by
  by_contra hc
  push_neg at hc
  have : c / d ≤ 0 := div_nonpos_of_nonpos_of_nonneg hc (le_of_lt hd)
  linarith

theorem neg_of_div_pos_of_neg {c d : ℝ} (hd : d < 0) (h : 0 < c / d) :
    c < 0 := by
  by_contra hc
  push_neg at hc
  have : c / d ≤ 0 := div_nonpos_of_nonneg_of_nonpos hc (le_of_lt hd)
  linarith

theorem crossX_decomp (p P Q : Point) (hne : Q.y - P.y ≠ 0) :
    (Q.x - P.x) * (p.y - P.y) / (Q.y - P.y) + P.x - p.x
      = cross2 (subP Q P) (subP p P) / (Q.y - P.y) := by
  simp only [cross2, subP]
  field_simp
  ring

theorem rayCrosses_iff_up (p P Q : Point) (hP : ¬ P.y > p.y)
    (hQ : Q.y > p.y) :
    rayCrosses p P Q ↔ 0 < cross2 (subP Q P) (subP p P) := by
  have hΔ : 0 < Q.y - P.y := by
    push_neg at hP
    linarith
  have h3 := crossX_decomp p P Q (ne_of_gt hΔ)
  unfold rayCrosses
  constructor
  · rintro ⟨-, hx⟩
    have h2 : 0 < (Q.x - P.x) * (p.y - P.y) / (Q.y - P.y) + P.x - p.x := by
      linarith
    rw [h3] at h2
    exact pos_of_div_pos hΔ h2
  · intro hc
    refine ⟨Or.inr ⟨hQ, hP⟩, ?_⟩
    have h2 : 0 < cross2 (subP Q P) (subP p P) / (Q.y - P.y) :=
      div_pos hc hΔ
    linarith [h3 ▸ h2]

theorem rayCrosses_iff_down (p P Q : Point) (hP : P.y > p.y)
    (hQ : ¬ Q.y > p.y) :
    rayCrosses p P Q ↔ cross2 (subP Q P) (subP p P) < 0 := by
  have hΔ : Q.y - P.y < 0 := by
    push_neg at hQ
    linarith
  have h3 := crossX_decomp p P Q (ne_of_lt hΔ)
  unfold rayCrosses
  constructor
  · rintro ⟨-, hx⟩
    have h2 : 0 < (Q.x - P.x) * (p.y - P.y) / (Q.y - P.y) + P.x - p.x := by
      linarith
    rw [h3] at h2
    exact neg_of_div_pos_of_neg hΔ h2
  · intro hc
    refine ⟨Or.inl ⟨hP, hQ⟩, ?_⟩
    have h2 : 0 < cross2 (subP Q P) (subP p P) / (Q.y - P.y) :=
      div_pos_of_neg_of_neg hc hΔ
    linarith [h3 ▸ h2]

set_option maxHeartbeats 1000000 in
/-- Strictly interior points of a nondegenerate triangle have odd
ray-cast parity. -/
theorem triXor_of_strict_interior (p A B C : Point) (a b c : ℝ)
    (ha : 0 < a) (hb : 0 < b) (hc : 0 < c) (hsum : a + b + c = 1)
    (hx : p.x = a * A.x + b * B.x + c * C.x)
    (hy : p.y = a * A.y + b * B.y + c * C.y)
    (hω : cross2 (subP B A) (subP C A) ≠ 0) :
    triXor p A B C := by
  have hceq : c = 1 - a - b := by linarith
  subst hceq
  have hcA : cross2 (subP C B) (subP p B)
      = a * cross2 (subP B A) (subP C A) := by
    simp only [cross2, subP]
    rw [hx, hy]
    ring
  have hcB : cross2 (subP A C) (subP p C)
      = b * cross2 (subP B A) (subP C A) := by
    simp only [cross2, subP]
    rw [hx, hy]
    ring
  have hcC : cross2 (subP B A) (subP p A)
      = (1 - a - b) * cross2 (subP B A) (subP C A) := by
    simp only [cross2, subP]
    rw [hx, hy]
    ring
  by_cases hsA : A.y > p.y <;> by_cases hsB : B.y > p.y <;>
    by_cases hsC : C.y > p.y
  · -- (T,T,T): impossible
    exfalso
    nlinarith [mul_pos ha (show (0:ℝ) < A.y - p.y by linarith),
      mul_pos hb (show (0:ℝ) < B.y - p.y by linarith),
      mul_pos hc (show (0:ℝ) < C.y - p.y by linarith)]
  · -- (T,T,F)
    have he1 := rayCrosses_not_of_same_side p A B (iff_of_true hsA hsB)
    have he2 := rayCrosses_iff_down p B C hsB hsC
    have he3 := rayCrosses_iff_up p C A hsC hsA
    rw [hcA] at he2
    rw [hcB] at he3
    unfold triXor
    rcases hω.lt_or_lt with hneg | hpos
    · have h2 := mul_neg_of_pos_of_neg ha hneg
      have h3 := not_lt.mpr (le_of_lt (mul_neg_of_pos_of_neg hb hneg))
      unfold Xor'
      tauto
    · have h2 := not_lt.mpr (le_of_lt (mul_pos ha hpos))
      have h3 := mul_pos hb hpos
      unfold Xor'
      tauto
  · -- (T,F,T)
    have he1 := rayCrosses_iff_down p A B hsA hsB
    have he2 := rayCrosses_iff_up p B C hsB hsC
    have he3 := rayCrosses_not_of_same_side p C A (iff_of_true hsC hsA)
    rw [hcC] at he1
    rw [hcA] at he2
    unfold triXor
    rcases hω.lt_or_lt with hneg | hpos
    · have h1 := mul_neg_of_pos_of_neg hc hneg
      have h2 := not_lt.mpr (le_of_lt (mul_neg_of_pos_of_neg ha hneg))
      unfold Xor'
      tauto
    · have h1 := not_lt.mpr (le_of_lt (mul_pos hc hpos))
      have h2 := mul_pos ha hpos
      unfold Xor'
      tauto
  · -- (T,F,F)
    have he1 := rayCrosses_iff_down p A B hsA hsB
    have he2 := rayCrosses_not_of_same_side p B C (iff_of_false hsB hsC)
    have he3 := rayCrosses_iff_up p C A hsC hsA
    rw [hcC] at he1
    rw [hcB] at he3
    unfold triXor
    rcases hω.lt_or_lt with hneg | hpos
    · have h1 := mul_neg_of_pos_of_neg hc hneg
      have h3 := not_lt.mpr (le_of_lt (mul_neg_of_pos_of_neg hb hneg))
      unfold Xor'
      tauto
    · have h1 := not_lt.mpr (le_of_lt (mul_pos hc hpos))
      have h3 := mul_pos hb hpos
      unfold Xor'
      tauto
  · -- (F,T,T)
    have he1 := rayCrosses_iff_up p A B hsA hsB
    have he2 := rayCrosses_not_of_same_side p B C (iff_of_true hsB hsC)
    have he3 := rayCrosses_iff_down p C A hsC hsA
    rw [hcC] at he1
    rw [hcB] at he3
    unfold triXor
    rcases hω.lt_or_lt with hneg | hpos
    · have h1 := not_lt.mpr (le_of_lt (mul_neg_of_pos_of_neg hc hneg))
      have h3 := mul_neg_of_pos_of_neg hb hneg
      unfold Xor'
      tauto
    · have h1 := mul_pos hc hpos
      have h3 := not_lt.mpr (le_of_lt (mul_pos hb hpos))
      unfold Xor'
      tauto
  · -- (F,T,F)
    have he1 := rayCrosses_iff_up p A B hsA hsB
    have he2 := rayCrosses_iff_down p B C hsB hsC
    have he3 := rayCrosses_not_of_same_side p C A (iff_of_false hsC hsA)
    rw [hcC] at he1
    rw [hcA] at he2
    unfold triXor
    rcases hω.lt_or_lt with hneg | hpos
    · have h1 := not_lt.mpr (le_of_lt (mul_neg_of_pos_of_neg hc hneg))
      have h2 := mul_neg_of_pos_of_neg ha hneg
      unfold Xor'
      tauto
    · have h1 := mul_pos hc hpos
      have h2 := not_lt.mpr (le_of_lt (mul_pos ha hpos))
      unfold Xor'
      tauto
  · -- (F,F,T)
    have he1 := rayCrosses_not_of_same_side p A B (iff_of_false hsA hsB)
    have he2 := rayCrosses_iff_up p B C hsB hsC
    have he3 := rayCrosses_iff_down p C A hsC hsA
    rw [hcA] at he2
    rw [hcB] at he3
    unfold triXor
    rcases hω.lt_or_lt with hneg | hpos
    · have h2 := not_lt.mpr (le_of_lt (mul_neg_of_pos_of_neg ha hneg))
      have h3 := mul_neg_of_pos_of_neg hb hneg
      unfold Xor'
      tauto
    · have h2 := mul_pos ha hpos
      have h3 := not_lt.mpr (le_of_lt (mul_pos hb hpos))
      unfold Xor'
      tauto
  · -- (F,F,F): impossible
    exfalso
    push_neg at hsA hsB hsC
    have t1 : 0 ≤ a * (p.y - A.y) := mul_nonneg (le_of_lt ha) (by linarith)
    have t2 : 0 ≤ b * (p.y - B.y) := mul_nonneg (le_of_lt hb) (by linarith)
    have t3 : 0 ≤ (1 - a - b) * (p.y - C.y) :=
      mul_nonneg (le_of_lt hc) (by linarith)
    have hsum0 : a * (p.y - A.y) + b * (p.y - B.y)
        + (1 - a - b) * (p.y - C.y) = 0 := by linear_combination hy
    have z1 : a * (p.y - A.y) = 0 := by linarith
    have z2 : b * (p.y - B.y) = 0 := by linarith
    have z3 : (1 - a - b) * (p.y - C.y) = 0 := by linarith
    have hAy : A.y = p.y := by
      rcases mul_eq_zero.mp z1 with h | h
      · exact absurd h (ne_of_gt ha)
      · linarith
    have hBy : B.y = p.y := by
      rcases mul_eq_zero.mp z2 with h | h
      · exact absurd h (ne_of_gt hb)
      · linarith
    have hCy : C.y = p.y := by
      rcases mul_eq_zero.mp z3 with h | h
      · exact absurd h (ne_of_gt hc)
      · linarith
    apply hω
    simp only [cross2, subP]
    linear_combination (B.x - A.x) * hCy - (B.x - A.x) * hAy
      - (C.x - A.x) * hBy + (C.x - A.x) * hAy

/-! ### Triangle exclusion lemmas

A point with a strictly negative barycentric numerator (relative to a
positively oriented triangle) has even parity against that triangle. -/

theorem cross2_cyclic (A B C : Point) :
    cross2 (subP B A) (subP C A) = cross2 (subP C B) (subP A B) := by
  simp only [cross2, subP]
  ring

theorem triXor_rot (p A B C : Point) :
    triXor p A B C ↔ triXor p B C A := by
  unfold triXor Xor'
  tauto

theorem subP_zeroP (p : Point) : subP p zeroP = p := by
  cases p
  simp [subP, zeroP]

theorem cross2_subP_zeroP_left (C p : Point) :
    cross2 (subP zeroP C) (subP p C) = cross2 p C := by
  simp only [cross2, subP, zeroP]
  ring

theorem cross2_comb_right (u v w : Point) (α β : ℝ) :
    cross2 u (addP (smulP α v) (smulP β w))
      = α * cross2 u v + β * cross2 u w := by
  simp only [cross2, addP, smulP]
  ring

theorem cross2_comb_left (u v w : Point) (α β : ℝ) :
    cross2 (addP (smulP α u) (smulP β v)) w
      = α * cross2 u w + β * cross2 v w := by
  simp only [cross2, addP, smulP]
  ring

theorem bary_rep_x (p A B C : Point) :
    cross2 (subP C B) (subP p B) * A.x + cross2 (subP A C) (subP p C) * B.x
        + cross2 (subP B A) (subP p A) * C.x
      = cross2 (subP B A) (subP C A) * p.x := by
  simp only [cross2, subP]
  ring

theorem bary_rep_y (p A B C : Point) :
    cross2 (subP C B) (subP p B) * A.y + cross2 (subP A C) (subP p C) * B.y
        + cross2 (subP B A) (subP p A) * C.y
      = cross2 (subP B A) (subP C A) * p.y := by
  simp only [cross2, subP]
  ring

theorem rayCrosses_on_line (p P Q : Point) (t : ℝ)
    (hx : p.x = P.x + t * (Q.x - P.x)) (hy : p.y = P.y + t * (Q.y - P.y)) :
    ¬ rayCrosses p P Q := by
  rintro ⟨hstrad, hlt⟩
  have hne : Q.y - P.y ≠ 0 := by
    intro h0
    have hpy : p.y = P.y := by rw [hy, h0]; ring
    have hqy : Q.y = P.y := by linarith
    rcases hstrad with ⟨h1, h2⟩ | ⟨h1, h2⟩
    · exact h2 (by rw [hqy]; exact h1)
    · exact h2 (by rw [← hqy]; exact h1)
  have h1 : p.y - P.y = t * (Q.y - P.y) := by rw [hy]; ring
  have h2 : (Q.x - P.x) * (p.y - P.y) / (Q.y - P.y) = t * (Q.x - P.x) := by
    rw [h1]
    field_simp
    ring
  have h3 : (Q.x - P.x) * (p.y - P.y) / (Q.y - P.y) + P.x = p.x := by
    rw [h2, hx]
    ring
  rw [h3] at hlt
  exact lt_irrefl _ hlt

theorem listXor_false_of_all_false (l : List Prop) (h : ∀ q ∈ l, ¬ q) :
    ¬ listXor l := by
  induction l with
  | nil => exact fun hx => hx
  | cons a t ih =>
    intro hx
    rw [listXor_cons] at hx
    have hna := h a (List.mem_cons_self a t)
    have hnt := ih (fun q hq => h q (List.mem_cons_of_mem _ hq))
    unfold Xor' at hx
    tauto

theorem listXor_eq_single (f : ℕ → Prop) (n j : ℕ) (hj : j < n)
    (huniq : ∀ i, i < n → i ≠ j → ¬ f i) :
    listXor ((List.range n).map f) ↔ f j := by
  induction n with
  | zero => omega
  | succ n ih =>
    rw [List.range_succ, List.map_append]
    simp only [List.map_cons, List.map_nil]
    rw [listXor_append_singleton]
    by_cases hjn : j = n
    · rw [hjn]
      have hall : ¬ listXor ((List.range n).map f) := by
        apply listXor_false_of_all_false
        intro q hq
        rw [List.mem_map] at hq
        obtain ⟨i, hi, rfl⟩ := hq
        rw [List.mem_range] at hi
        exact huniq i (by omega) (by omega)
      unfold Xor'
      tauto
    · have hjlt : j < n := by omega
      have hinner := ih hjlt (fun i hi hij => huniq i (by omega) hij)
      have hfn : ¬ f n := huniq n (by omega) (by omega)
      unfold Xor'
      tauto

theorem listXor_eq_pair (f : ℕ → Prop) (n j₁ j₂ : ℕ) (hj₁ : j₁ < n)
    (hj₂ : j₂ < n) (hne : j₁ ≠ j₂)
    (huniq : ∀ i, i < n → i ≠ j₁ → i ≠ j₂ → ¬ f i) :
    listXor ((List.range n).map f) ↔ Xor' (f j₁) (f j₂) := by
  induction n with
  | zero => omega
  | succ n ih =>
    rw [List.range_succ, List.map_append]
    simp only [List.map_cons, List.map_nil]
    rw [listXor_append_singleton]
    by_cases h2n : j₂ = n
    · rw [h2n]
      have hinner : listXor ((List.range n).map f) ↔ f j₁ := by
        apply listXor_eq_single f n j₁ (by omega)
        intro i hi hij
        exact huniq i (by omega) hij (by omega)
      unfold Xor'
      tauto
    · by_cases h1n : j₁ = n
      · rw [h1n]
        have hinner : listXor ((List.range n).map f) ↔ f j₂ := by
          apply listXor_eq_single f n j₂ (by omega)
          intro i hi hij
          exact huniq i (by omega) (by omega) hij
        unfold Xor'
        tauto
      · have hinner := ih (by omega) (by omega)
          (fun i hi h1 h2 => huniq i (by omega) h1 h2)
        have hfn : ¬ f n := huniq n (by omega) (by omega) (by omega)
        unfold Xor' at hinner ⊢
        tauto

set_option maxHeartbeats 1600000 in
/-- A point strictly on the outer side of edge `BC` (negative barycentric
numerator for `A`) of a positively oriented triangle has even parity. -/
theorem not_triXor_of_negA (p A B C : Point)
    (hω : 0 < cross2 (subP B A) (subP C A))
    (hA : cross2 (subP C B) (subP p B) < 0) : ¬ triXor p A B C := by
  intro htri
  have hsum : cross2 (subP C B) (subP p B) + cross2 (subP A C) (subP p C)
      + cross2 (subP B A) (subP p A) = cross2 (subP B A) (subP C A) := by
    simp only [cross2, subP]
    ring
  have hyid : cross2 (subP C B) (subP p B) * (A.y - p.y)
      + cross2 (subP A C) (subP p C) * (B.y - p.y)
      + cross2 (subP B A) (subP p A) * (C.y - p.y) = 0 := by
    simp only [cross2, subP]
    ring
  unfold triXor at htri
  by_cases hsA : A.y > p.y <;> by_cases hsB : B.y > p.y <;>
    by_cases hsC : C.y > p.y
  · -- (T,T,T)
    have h1 := rayCrosses_not_of_same_side p A B (iff_of_true hsA hsB)
    have h2 := rayCrosses_not_of_same_side p B C (iff_of_true hsB hsC)
    have h3 := rayCrosses_not_of_same_side p C A (iff_of_true hsC hsA)
    unfold Xor' at htri
    tauto
  · -- (T,T,F)
    have h1 := rayCrosses_not_of_same_side p A B (iff_of_true hsA hsB)
    rw [rayCrosses_iff_down p B C hsB hsC,
      rayCrosses_iff_up p C A hsC hsA] at htri
    have hyC : C.y ≤ p.y := not_lt.mp hsC
    have hcB : ¬ 0 < cross2 (subP A C) (subP p C) := by
      unfold Xor' at htri
      tauto
    have hcB' : cross2 (subP A C) (subP p C) ≤ 0 := not_lt.mp hcB
    have p1 : 0 < (0 - cross2 (subP C B) (subP p B)) * (A.y - p.y) :=
      mul_pos (by linarith) (by linarith)
    have p2 : 0 ≤ (0 - cross2 (subP A C) (subP p C)) * (B.y - p.y) :=
      mul_nonneg (by linarith) (by linarith)
    have p3 : 0 ≤ cross2 (subP B A) (subP p A) * (p.y - C.y) :=
      mul_nonneg (by linarith) (by linarith)
    linarith [hyid, p1, p2, p3]
  · -- (T,F,T)
    rw [rayCrosses_iff_down p A B hsA hsB,
      rayCrosses_iff_up p B C hsB hsC] at htri
    have h3 := rayCrosses_not_of_same_side p C A (iff_of_true hsC hsA)
    have hyB : B.y ≤ p.y := not_lt.mp hsB
    have hnA : ¬ 0 < cross2 (subP C B) (subP p B) := not_lt.mpr (le_of_lt hA)
    have hcC : cross2 (subP B A) (subP p A) < 0 := by
      unfold Xor' at htri
      tauto
    have hcB : 0 < cross2 (subP A C) (subP p C) := by linarith
    have p1 : 0 < (0 - cross2 (subP C B) (subP p B)) * (A.y - p.y) :=
      mul_pos (by linarith) (by linarith)
    have p2 : 0 ≤ cross2 (subP A C) (subP p C) * (p.y - B.y) :=
      mul_nonneg (by linarith) (by linarith)
    have p3 : 0 < (0 - cross2 (subP B A) (subP p A)) * (C.y - p.y) :=
      mul_pos (by linarith) (by linarith)
    linarith [hyid, p1, p2, p3]
  · -- (T,F,F)
    rw [rayCrosses_iff_down p A B hsA hsB,
      rayCrosses_iff_up p C A hsC hsA] at htri
    have h2 := rayCrosses_not_of_same_side p B C (iff_of_false hsB hsC)
    have hyB : B.y ≤ p.y := not_lt.mp hsB
    have hyC : C.y ≤ p.y := not_lt.mp hsC
    have hx : Xor' (cross2 (subP B A) (subP p A) < 0)
        (0 < cross2 (subP A C) (subP p C)) := by
      unfold Xor' at htri ⊢
      tauto
    rcases hx with ⟨hcC, hcB⟩ | ⟨hcB, hcC⟩
    · have hcB' : cross2 (subP A C) (subP p C) ≤ 0 := not_lt.mp hcB
      linarith [hsum]
    · have hcC' : 0 ≤ cross2 (subP B A) (subP p A) := not_lt.mp hcC
      have p1 : 0 < (0 - cross2 (subP C B) (subP p B)) * (A.y - p.y) :=
        mul_pos (by linarith) (by linarith)
      have p2 : 0 ≤ cross2 (subP A C) (subP p C) * (p.y - B.y) :=
        mul_nonneg (by linarith) (by linarith)
      have p3 : 0 ≤ cross2 (subP B A) (subP p A) * (p.y - C.y) :=
        mul_nonneg (by linarith) (by linarith)
      linarith [hyid, p1, p2, p3]
  · -- (F,T,T)
    rw [rayCrosses_iff_up p A B hsA hsB,
      rayCrosses_iff_down p C A hsC hsA] at htri
    have h2 := rayCrosses_not_of_same_side p B C (iff_of_true hsB hsC)
    have hyA : A.y ≤ p.y := not_lt.mp hsA
    have hx : Xor' (0 < cross2 (subP B A) (subP p A))
        (cross2 (subP A C) (subP p C) < 0) := by
      unfold Xor' at htri ⊢
      tauto
    rcases hx with ⟨hcC, hcB⟩ | ⟨hcB, hcC⟩
    · have hcB' : 0 ≤ cross2 (subP A C) (subP p C) := not_lt.mp hcB
      have p1 : 0 ≤ (0 - cross2 (subP C B) (subP p B)) * (p.y - A.y) :=
        mul_nonneg (by linarith) (by linarith)
      have p2 : 0 ≤ cross2 (subP A C) (subP p C) * (B.y - p.y) :=
        mul_nonneg (by linarith) (by linarith)
      have p3 : 0 < cross2 (subP B A) (subP p A) * (C.y - p.y) :=
        mul_pos (by linarith) (by linarith)
      linarith [hyid, p1, p2, p3]
    · have hcC' : cross2 (subP B A) (subP p A) ≤ 0 := not_lt.mp hcC
      linarith [hsum]
  · -- (F,T,F)
    rw [rayCrosses_iff_up p A B hsA hsB,
      rayCrosses_iff_down p B C hsB hsC] at htri
    have h3 := rayCrosses_not_of_same_side p C A (iff_of_false hsC hsA)
    have hyA : A.y ≤ p.y := not_lt.mp hsA
    have hyC : C.y ≤ p.y := not_lt.mp hsC
    have hcC : ¬ 0 < cross2 (subP B A) (subP p A) := by
      unfold Xor' at htri
      tauto
    have hcC' : cross2 (subP B A) (subP p A) ≤ 0 := not_lt.mp hcC
    have hcB : 0 < cross2 (subP A C) (subP p C) := by linarith
    have p1 : 0 ≤ (0 - cross2 (subP C B) (subP p B)) * (p.y - A.y) :=
      mul_nonneg (by linarith) (by linarith)
    have p2 : 0 < cross2 (subP A C) (subP p C) * (B.y - p.y) :=
      mul_pos (by linarith) (by linarith)
    have p3 : 0 ≤ (0 - cross2 (subP B A) (subP p A)) * (p.y - C.y) :=
      mul_nonneg (by linarith) (by linarith)
    linarith [hyid, p1, p2, p3]
  · -- (F,F,T)
    rw [rayCrosses_iff_up p B C hsB hsC,
      rayCrosses_iff_down p C A hsC hsA] at htri
    have h1 := rayCrosses_not_of_same_side p A B (iff_of_false hsA hsB)
    have hyA : A.y ≤ p.y := not_lt.mp hsA
    have hyB : B.y ≤ p.y := not_lt.mp hsB
    have hnA : ¬ 0 < cross2 (subP C B) (subP p B) := not_lt.mpr (le_of_lt hA)
    have hcB : cross2 (subP A C) (subP p C) < 0 := by
      unfold Xor' at htri
      tauto
    have hcC : 0 < cross2 (subP B A) (subP p A) := by linarith
    have p1 : 0 ≤ (0 - cross2 (subP C B) (subP p B)) * (p.y - A.y) :=
      mul_nonneg (by linarith) (by linarith)
    have p2 : 0 ≤ (0 - cross2 (subP A C) (subP p C)) * (p.y - B.y) :=
      mul_nonneg (by linarith) (by linarith)
    have p3 : 0 < cross2 (subP B A) (subP p A) * (C.y - p.y) :=
      mul_pos (by linarith) (by linarith)
    linarith [hyid, p1, p2, p3]
  · -- (F,F,F)
    have h1 := rayCrosses_not_of_same_side p A B (iff_of_false hsA hsB)
    have h2 := rayCrosses_not_of_same_side p B C (iff_of_false hsB hsC)
    have h3 := rayCrosses_not_of_same_side p C A (iff_of_false hsC hsA)
    unfold Xor' at htri
    tauto

theorem not_triXor_of_negB (p A B C : Point)
    (hω : 0 < cross2 (subP B A) (subP C A))
    (hB : cross2 (subP A C) (subP p C) < 0) : ¬ triXor p A B C := by
  intro h
  exact not_triXor_of_negA p B C A (cross2_cyclic A B C ▸ hω) hB
    ((triXor_rot p A B C).mp h)

theorem not_triXor_of_negC (p A B C : Point)
    (hω : 0 < cross2 (subP B A) (subP C A))
    (hC : cross2 (subP B A) (subP p A) < 0) : ¬ triXor p A B C := by
  intro h
  have hω' : 0 < cross2 (subP A C) (subP B C) :=
    (cross2_cyclic B C A) ▸ ((cross2_cyclic A B C) ▸ hω)
  exact not_triXor_of_negA p C A B hω' hC
    ((triXor_rot p B C A).mp ((triXor_rot p A B C).mp h))

set_option maxHeartbeats 1600000 in
/-- A point on the open shared edge `PQ` of two triangles whose third
vertices `U`, `V` lie strictly on opposite sides of the line `PQ` has odd
parity against exactly one of the two triangles. -/
theorem triXor_pair_on_edge (p P Q U V : Point) (t : ℝ)
    (ht0 : 0 < t) (ht1 : t < 1)
    (hx : p.x = P.x + t * (Q.x - P.x)) (hy : p.y = P.y + t * (Q.y - P.y))
    (hU : cross2 (subP Q P) (subP U P) < 0)
    (hV : 0 < cross2 (subP Q P) (subP V P)) :
    Xor' (triXor p P U Q) (triXor p P Q V) := by
  have e1 : cross2 (subP U P) (subP p P)
      = (0 - t) * cross2 (subP Q P) (subP U P) := by
    simp only [cross2, subP]
    rw [hx, hy]
    ring
  have e2 : cross2 (subP Q U) (subP p U)
      = (0 - (1 - t)) * cross2 (subP Q P) (subP U P) := by
    simp only [cross2, subP]
    rw [hx, hy]
    ring
  have e3 : cross2 (subP V Q) (subP p Q)
      = (1 - t) * cross2 (subP Q P) (subP V P) := by
    simp only [cross2, subP]
    rw [hx, hy]
    ring
  have e4 : cross2 (subP P V) (subP p V)
      = t * cross2 (subP Q P) (subP V P) := by
    simp only [cross2, subP]
    rw [hx, hy]
    ring
  have hPQ : ¬ rayCrosses p P Q := rayCrosses_on_line p P Q t hx hy
  have hQP : ¬ rayCrosses p Q P :=
    rayCrosses_on_line p Q P (1 - t) (by rw [hx]; ring) (by rw [hy]; ring)
  have hmt : (0:ℝ) < 1 - t := by linarith
  have hUn : 0 < 0 - cross2 (subP Q P) (subP U P) := by linarith
  have em1 : 0 < (0 - t) * cross2 (subP Q P) (subP U P) := by
    nlinarith [mul_pos ht0 hUn]
  have em2 : 0 < (0 - (1 - t)) * cross2 (subP Q P) (subP U P) := by
    nlinarith [mul_pos hmt hUn]
  have em3 : 0 < (1 - t) * cross2 (subP Q P) (subP V P) := mul_pos hmt hV
  have em4 : 0 < t * cross2 (subP Q P) (subP V P) := mul_pos ht0 hV
  rcases lt_trichotomy P.y Q.y with hyc | hyc | hyc
  · -- P strictly below Q: P below the ray line, Q above it
    have hpP : ¬ P.y > p.y := by
      have h1 : P.y < p.y := by
        rw [hy]
        have := mul_pos ht0 (sub_pos.mpr hyc)
        linarith
      exact not_lt.mpr (le_of_lt h1)
    have hpQ : Q.y > p.y := by
      rw [hy]
      have := mul_pos (show (0:ℝ) < 1 - t by linarith) (sub_pos.mpr hyc)
      linarith
    have hVfirst : ∀ h : V.y > p.y ∨ ¬ V.y > p.y, True := fun _ => trivial
    by_cases hU' : U.y > p.y <;> by_cases hV' : V.y > p.y
    · have hPU : rayCrosses p P U := (rayCrosses_iff_up p P U hpP hU').mpr
        (by rw [e1]; exact em1)
      have hUQ : ¬ rayCrosses p U Q :=
        rayCrosses_not_of_same_side p U Q (iff_of_true hU' hpQ)
      have hQV : ¬ rayCrosses p Q V :=
        rayCrosses_not_of_same_side p Q V (iff_of_true hpQ hV')
      have hVP : ¬ rayCrosses p V P := fun h =>
        absurd ((rayCrosses_iff_down p V P hV' hpP).mp h)
          (by rw [e4]; exact not_lt.mpr (le_of_lt em4))
      unfold triXor Xor'
      tauto
    · have hPU : rayCrosses p P U := (rayCrosses_iff_up p P U hpP hU').mpr
        (by rw [e1]; exact em1)
      have hUQ : ¬ rayCrosses p U Q :=
        rayCrosses_not_of_same_side p U Q (iff_of_true hU' hpQ)
      have hQV : ¬ rayCrosses p Q V := fun h =>
        absurd ((rayCrosses_iff_down p Q V hpQ hV').mp h)
          (by rw [e3]; exact not_lt.mpr (le_of_lt em3))
      have hVP : ¬ rayCrosses p V P :=
        rayCrosses_not_of_same_side p V P (iff_of_false hV' hpP)
      unfold triXor Xor'
      tauto
    · have hPU : ¬ rayCrosses p P U :=
        rayCrosses_not_of_same_side p P U (iff_of_false hpP hU')
      have hUQ : rayCrosses p U Q := (rayCrosses_iff_up p U Q hU' hpQ).mpr
        (by rw [e2]; exact em2)
      have hQV : ¬ rayCrosses p Q V :=
        rayCrosses_not_of_same_side p Q V (iff_of_true hpQ hV')
      have hVP : ¬ rayCrosses p V P := fun h =>
        absurd ((rayCrosses_iff_down p V P hV' hpP).mp h)
          (by rw [e4]; exact not_lt.mpr (le_of_lt em4))
      unfold triXor Xor'
      tauto
    · have hPU : ¬ rayCrosses p P U :=
        rayCrosses_not_of_same_side p P U (iff_of_false hpP hU')
      have hUQ : rayCrosses p U Q := (rayCrosses_iff_up p U Q hU' hpQ).mpr
        (by rw [e2]; exact em2)
      have hQV : ¬ rayCrosses p Q V := fun h =>
        absurd ((rayCrosses_iff_down p Q V hpQ hV').mp h)
          (by rw [e3]; exact not_lt.mpr (le_of_lt em3))
      have hVP : ¬ rayCrosses p V P :=
        rayCrosses_not_of_same_side p V P (iff_of_false hV' hpP)
      unfold triXor Xor'
      tauto
  · -- P and Q at the same height: the shared edge is horizontal
    have hpy : p.y = P.y := by rw [hy, hyc]; ring
    have hpP : ¬ P.y > p.y := by rw [hpy]; exact lt_irrefl P.y
    have hpQ : ¬ Q.y > p.y := by rw [hpy, hyc]; exact lt_irrefl Q.y
    have hU2 : (Q.x - P.x) * (U.y - P.y) < 0 := by
      have hU' : (Q.x - P.x) * (U.y - P.y) - (Q.y - P.y) * (U.x - P.x) < 0 :=
        hU
      have h0 : Q.y - P.y = 0 := by rw [hyc]; ring
      rw [h0] at hU'
      linarith
    have hV2 : 0 < (Q.x - P.x) * (V.y - P.y) := by
      have hV' : 0 < (Q.x - P.x) * (V.y - P.y) - (Q.y - P.y) * (V.x - P.x) :=
        hV
      have h0 : Q.y - P.y = 0 := by rw [hyc]; ring
      rw [h0] at hV'
      linarith
    rcases lt_trichotomy (Q.x - P.x) 0 with hdx | hdx | hdx
    · -- Q strictly to the left of P: U above, V below
      have hUy : U.y > p.y := by
        rw [hpy]
        by_contra hle
        push_neg at hle
        have := mul_nonneg (le_of_lt (neg_pos.mpr hdx)) (sub_nonneg.mpr hle)
        nlinarith [hU2]
      have hVy : ¬ V.y > p.y := by
        intro hgt
        rw [hpy] at hgt
        have := mul_pos (neg_pos.mpr hdx) (sub_pos.mpr hgt)
        nlinarith [hV2]
      have hPU : rayCrosses p P U := (rayCrosses_iff_up p P U hpP hUy).mpr
        (by rw [e1]; exact em1)
      have hUQ : ¬ rayCrosses p U Q := fun h =>
        absurd ((rayCrosses_iff_down p U Q hUy hpQ).mp h)
          (by rw [e2]; exact not_lt.mpr (le_of_lt em2))
      have hQV : ¬ rayCrosses p Q V :=
        rayCrosses_not_of_same_side p Q V (iff_of_false hpQ hVy)
      have hVP : ¬ rayCrosses p V P :=
        rayCrosses_not_of_same_side p V P (iff_of_false hVy hpP)
      unfold triXor Xor'
      tauto
    · exfalso
      rw [hdx] at hU2
      simp at hU2
    · -- Q strictly to the right of P: U below, V above
      have hUy : ¬ U.y > p.y := by
        intro hgt
        rw [hpy] at hgt
        have := mul_pos hdx (sub_pos.mpr hgt)
        nlinarith [hU2]
      have hVy : V.y > p.y := by
        rw [hpy]
        by_contra hle
        push_neg at hle
        have := mul_nonneg (le_of_lt hdx) (sub_nonneg.mpr (by linarith : U.y ≤ U.y))
        nlinarith [hV2, mul_nonpos_of_nonneg_of_nonpos (le_of_lt hdx)
          (sub_nonpos.mpr hle)]
      have hPU : ¬ rayCrosses p P U :=
        rayCrosses_not_of_same_side p P U (iff_of_false hpP hUy)
      have hUQ : ¬ rayCrosses p U Q :=
        rayCrosses_not_of_same_side p U Q (iff_of_false hUy hpQ)
      have hQV : rayCrosses p Q V := (rayCrosses_iff_up p Q V hpQ hVy).mpr
        (by rw [e3]; exact em3)
      have hVP : ¬ rayCrosses p V P := fun h =>
        absurd ((rayCrosses_iff_down p V P hVy hpP).mp h)
          (by rw [e4]; exact not_lt.mpr (le_of_lt em4))
      unfold triXor Xor'
      tauto
  · -- P strictly above Q
    have hpP : P.y > p.y := by
      rw [hy]
      have := mul_pos ht0 (sub_pos.mpr hyc)
      nlinarith [mul_pos ht0 (sub_pos.mpr hyc)]
    have hpQ : ¬ Q.y > p.y := by
      have h1 : Q.y < p.y := by
        rw [hy]
        have := mul_pos (show (0:ℝ) < 1 - t by linarith) (sub_pos.mpr hyc)
        nlinarith [mul_pos (show (0:ℝ) < 1 - t by linarith)
          (sub_pos.mpr hyc)]
      exact not_lt.mpr (le_of_lt h1)
    by_cases hU' : U.y > p.y <;> by_cases hV' : V.y > p.y
    · have hPU : ¬ rayCrosses p P U :=
        rayCrosses_not_of_same_side p P U (iff_of_true hpP hU')
      have hUQ : ¬ rayCrosses p U Q := fun h =>
        absurd ((rayCrosses_iff_down p U Q hU' hpQ).mp h)
          (by rw [e2]; exact not_lt.mpr (le_of_lt em2))
      have hQV : rayCrosses p Q V := (rayCrosses_iff_up p Q V hpQ hV').mpr
        (by rw [e3]; exact em3)
      have hVP : ¬ rayCrosses p V P :=
        rayCrosses_not_of_same_side p V P (iff_of_true hV' hpP)
      unfold triXor Xor'
      tauto
    · have hPU : ¬ rayCrosses p P U :=
        rayCrosses_not_of_same_side p P U (iff_of_true hpP hU')
      have hUQ : ¬ rayCrosses p U Q := fun h =>
        absurd ((rayCrosses_iff_down p U Q hU' hpQ).mp h)
          (by rw [e2]; exact not_lt.mpr (le_of_lt em2))
      have hQV : ¬ rayCrosses p Q V :=
        rayCrosses_not_of_same_side p Q V (iff_of_false hpQ hV')
      have hVP : rayCrosses p V P := (rayCrosses_iff_up p V P hV' hpP).mpr
        (by rw [e4]; exact em4)
      unfold triXor Xor'
      tauto
    · have hPU : ¬ rayCrosses p P U := fun h =>
        absurd ((rayCrosses_iff_down p P U hpP hU').mp h)
          (by rw [e1]; exact not_lt.mpr (le_of_lt em1))
      have hUQ : ¬ rayCrosses p U Q :=
        rayCrosses_not_of_same_side p U Q (iff_of_false hU' hpQ)
      have hQV : rayCrosses p Q V := (rayCrosses_iff_up p Q V hpQ hV').mpr
        (by rw [e3]; exact em3)
      have hVP : ¬ rayCrosses p V P :=
        rayCrosses_not_of_same_side p V P (iff_of_true hV' hpP)
      unfold triXor Xor'
      tauto
    · have hPU : ¬ rayCrosses p P U := fun h =>
        absurd ((rayCrosses_iff_down p P U hpP hU').mp h)
          (by rw [e1]; exact not_lt.mpr (le_of_lt em1))
      have hUQ : ¬ rayCrosses p U Q :=
        rayCrosses_not_of_same_side p U Q (iff_of_false hU' hpQ)
      have hQV : ¬ rayCrosses p Q V :=
        rayCrosses_not_of_same_side p Q V (iff_of_false hpQ hV')
      have hVP : rayCrosses p V P := (rayCrosses_iff_up p V P hV' hpP).mpr
        (by rw [e4]; exact em4)
      unfold triXor Xor'
      tauto

/-! ### Polar polygons

Both ray-cast test polygons of `isPointInShape` (the inflated regular
polygon and the inflated star, both at rotation 0) list vertices in polar
form with strictly increasing angles `(i/m)·2π − π/2` and positive radii.
-/

noncomputable def pvtx (m : ℕ) (r : ℕ → ℝ) (i : ℕ) : Point :=
  ⟨Real.cos (((i : ℝ) / (m : ℝ)) * Real.pi * 2 - Real.pi / 2) * r i,
   Real.sin (((i : ℝ) / (m : ℝ)) * Real.pi * 2 - Real.pi / 2) * r i⟩

/-- Cyclic forward distance from index `u` to index `v` (indices below
`m`). -/
def idxDist (m u v : ℕ) : ℕ := if u ≤ v then v - u else v + m - u

def succIdx (m i : ℕ) : ℕ := if i + 1 = m then 0 else i + 1

theorem idxDist_lt (m u v : ℕ) (hu : u < m) (hv : v < m) :
    idxDist m u v < m := by
  unfold idxDist
  split <;> omega

theorem idxDist_eq_zero (m u v : ℕ) (hu : u < m) (hv : v < m)
    (h : idxDist m u v = 0) : u = v := by
  unfold idxDist at h
  split at h <;> omega

theorem idxDist_anti (m u v : ℕ) (hu : u < m) (hv : v < m) (hne : u ≠ v) :
    idxDist m u v + idxDist m v u = m := by
  unfold idxDist
  split <;> split <;> omega

theorem cycPrev_lt (m i : ℕ) (hm : 0 < m) (hi : i < m) : cycPrev m i < m := by
  unfold cycPrev
  split <;> omega

theorem succIdx_lt (m i : ℕ) (hm : 0 < m) (hi : i < m) : succIdx m i < m := by
  unfold succIdx
  split <;> omega

theorem cycPrev_succIdx (m i : ℕ) (hi : i < m) :
    cycPrev m (succIdx m i) = i := by
  unfold cycPrev succIdx
  split <;> split <;> omega

theorem idxDist_cycPrev_self (m i : ℕ) (hm : 2 ≤ m) (hi : i < m) :
    idxDist m (cycPrev m i) i = 1 := by
  unfold idxDist cycPrev
  by_cases h0 : i = 0
  · subst h0
    rw [if_pos rfl]
    split <;> omega
  · rw [if_neg h0]
    split <;> omega

theorem idxDist_succIdx_self (m i : ℕ) (hm : 2 ≤ m) (hi : i < m) :
    idxDist m i (succIdx m i) = 1 := by
  unfold idxDist succIdx
  by_cases h1 : i + 1 = m
  · rw [if_pos h1]
    split <;> omega
  · rw [if_neg h1]
    split <;> omega

theorem idxDist_self (m u : ℕ) : idxDist m u u = 0 := by
  unfold idxDist
  rw [if_pos (le_refl u)]
  omega

theorem idxDist_cycPrev_left (m j v : ℕ) (hm : 2 ≤ m) (hj : j < m)
    (hv : v < m) (hd : idxDist m j v ≤ m - 2) :
    idxDist m (cycPrev m j) v = idxDist m j v + 1 := by
  by_cases h0 : j = 0
  · subst h0
    have ep : cycPrev m 0 = m - 1 := by simp [cycPrev]
    have e1 : idxDist m 0 v = v := by
      unfold idxDist
      rw [if_pos (Nat.zero_le v)]
      omega
    rw [ep, e1]
    rw [e1] at hd
    unfold idxDist
    rw [if_neg (by omega)]
    omega
  · have ep : cycPrev m j = j - 1 := by simp [cycPrev, h0]
    rw [ep]
    unfold idxDist at hd ⊢
    rcases le_or_lt j v with hjv | hjv
    · rw [if_pos hjv] at hd
      rw [if_pos hjv, if_pos (by omega)]
      omega
    · rw [if_neg (by omega)] at hd
      rcases le_or_lt (j - 1) v with hj1 | hj1
      · omega
      · rw [if_neg (by omega), if_neg (by omega)]
        omega

theorem idxDist_cycPrev_both (m j i : ℕ) (hj : j < m) (hi : i < m) :
    idxDist m (cycPrev m j) (cycPrev m i) = idxDist m j i := by
  by_cases h0 : j = 0 <;> by_cases h1 : i = 0
  · subst h0
    subst h1
    rw [idxDist_self, idxDist_self]
  · subst h0
    have hm2 : 2 ≤ m := by omega
    have ep : cycPrev m 0 = m - 1 := by simp [cycPrev]
    have ei : cycPrev m i = i - 1 := by simp [cycPrev, h1]
    rw [ep, ei]
    unfold idxDist
    rw [if_neg (by omega), if_pos (Nat.zero_le i)]
    omega
  · subst h1
    have ep : cycPrev m 0 = m - 1 := by simp [cycPrev]
    have ej : cycPrev m j = j - 1 := by simp [cycPrev, h0]
    rw [ep, ej]
    unfold idxDist
    rw [if_pos (by omega), if_neg (by omega)]
    omega
  · have ej : cycPrev m j = j - 1 := by simp [cycPrev, h0]
    have ei : cycPrev m i = i - 1 := by simp [cycPrev, h1]
    rw [ej, ei]
    unfold idxDist
    rcases le_or_lt j i with hji | hji
    · rw [if_pos (by omega), if_pos hji]
      omega
    · rw [if_neg (by omega), if_neg (by omega)]
      omega

theorem pvtx_angle_sub (m u v : ℕ) (hm : (m:ℝ) ≠ 0) :
    ((v : ℝ) / (m : ℝ)) * Real.pi * 2 - Real.pi / 2
        - (((u : ℝ) / (m : ℝ)) * Real.pi * 2 - Real.pi / 2)
      = ((v : ℝ) - (u : ℝ)) * (Real.pi * 2 / (m : ℝ)) := by
  field_simp
  ring

theorem cross2_pvtx_raw (m : ℕ) (hm : 0 < m) (r q : ℕ → ℝ) (u v : ℕ) :
    cross2 (pvtx m r u) (pvtx m q v)
      = r u * q v
          * Real.sin (((v:ℝ) - (u:ℝ)) * (Real.pi * 2 / (m:ℝ))) := by
  have hm' : (m:ℝ) ≠ 0 := Nat.cast_ne_zero.mpr (by omega)
  have key : Real.sin (((v:ℝ) - (u:ℝ)) * (Real.pi * 2 / (m:ℝ)))
      = Real.sin (((v : ℝ) / (m : ℝ)) * Real.pi * 2 - Real.pi / 2)
          * Real.cos (((u : ℝ) / (m : ℝ)) * Real.pi * 2 - Real.pi / 2)
        - Real.cos (((v : ℝ) / (m : ℝ)) * Real.pi * 2 - Real.pi / 2)
          * Real.sin (((u : ℝ) / (m : ℝ)) * Real.pi * 2 - Real.pi / 2) := by
    rw [← pvtx_angle_sub m u v hm', Real.sin_sub]
  simp only [cross2, pvtx]
  rw [key]
  ring

theorem cross2_pvtx (m : ℕ) (hm : 0 < m) (r q : ℕ → ℝ) (u v : ℕ)
    (hu : u < m) (hv : v < m) :
    cross2 (pvtx m r u) (pvtx m q v)
      = r u * q v
          * Real.sin ((idxDist m u v : ℝ) * (Real.pi * 2 / (m:ℝ))) := by
  rw [cross2_pvtx_raw m hm r q u v]
  congr 1
  rcases le_or_lt u v with h | h
  · have h1 : idxDist m u v = v - u := by
      unfold idxDist
      rw [if_pos h]
    rw [h1]
    congr 2
    push_cast [h]
    ring
  · have h1 : idxDist m u v = v + m - u := by
      unfold idxDist
      rw [if_neg (by omega)]
    rw [h1]
    have h2 : ((v + m - u : ℕ) : ℝ) = (v:ℝ) + (m:ℝ) - (u:ℝ) := by
      push_cast [show u ≤ v + m by omega]
      ring
    rw [h2]
    have hm' : (m:ℝ) ≠ 0 := Nat.cast_ne_zero.mpr (by omega)
    have h3 : ((v:ℝ) + (m:ℝ) - (u:ℝ)) * (Real.pi * 2 / (m:ℝ))
        = ((v:ℝ) - (u:ℝ)) * (Real.pi * 2 / (m:ℝ)) + 2 * Real.pi := by
      field_simp
      ring
    rw [h3, Real.sin_add_two_pi]

theorem sin_idx_pos (m d : ℕ) (hd : 0 < d) (h2 : 2 * d < m) :
    0 < Real.sin ((d : ℝ) * (Real.pi * 2 / (m:ℝ))) := by
  have hm : 0 < m := by omega
  have hm' : (0:ℝ) < (m:ℝ) := by exact_mod_cast hm
  have hd' : (0:ℝ) < (d:ℝ) := by exact_mod_cast hd
  have h2' : 2 * (d:ℝ) < (m:ℝ) := by exact_mod_cast h2
  apply Real.sin_pos_of_pos_of_lt_pi
  · apply mul_pos hd'
    positivity
  · have he : (d:ℝ) * (Real.pi * 2 / (m:ℝ)) = (d:ℝ) * Real.pi * 2 / (m:ℝ) := by
      ring
    rw [he, div_lt_iff hm']
    nlinarith [Real.pi_pos]

theorem sin_idx_neg (m d : ℕ) (h2 : m < 2 * d) (hdm : d < m) :
    Real.sin ((d:ℝ) * (Real.pi * 2 / (m:ℝ))) < 0 := by
  have hm : 0 < m := by omega
  have hm' : (0:ℝ) < (m:ℝ) := by exact_mod_cast hm
  have h2' : (m:ℝ) < 2 * (d:ℝ) := by exact_mod_cast h2
  have hdm' : (d:ℝ) < (m:ℝ) := by exact_mod_cast hdm
  have he : (d:ℝ) * (Real.pi * 2 / (m:ℝ)) = (d:ℝ) * Real.pi * 2 / (m:ℝ) := by
    ring
  have hx1 : Real.pi < (d:ℝ) * (Real.pi * 2 / (m:ℝ)) := by
    rw [he, lt_div_iff hm']
    nlinarith [Real.pi_pos]
  have hx2 : (d:ℝ) * (Real.pi * 2 / (m:ℝ)) < 2 * Real.pi := by
    rw [he, div_lt_iff hm']
    nlinarith [Real.pi_pos]
  have hpos : 0 < Real.sin ((d:ℝ) * (Real.pi * 2 / (m:ℝ)) - Real.pi) :=
    Real.sin_pos_of_pos_of_lt_pi (by linarith) (by linarith)
  have hs : Real.sin ((d:ℝ) * (Real.pi * 2 / (m:ℝ)) - Real.pi)
      = - Real.sin ((d:ℝ) * (Real.pi * 2 / (m:ℝ))) := by
    rw [Real.sin_sub]
    simp [Real.sin_pi, Real.cos_pi]
  rw [hs] at hpos
  linarith

theorem sin_idx_nonpos (m d : ℕ) (h2 : m ≤ 2 * d) (hdm : d < m) :
    Real.sin ((d:ℝ) * (Real.pi * 2 / (m:ℝ))) ≤ 0 := by
  rcases eq_or_lt_of_le h2 with heq | hlt
  · have hd : 0 < d := by omega
    have hd' : (d:ℝ) ≠ 0 := Nat.cast_ne_zero.mpr (by omega)
    have hmeq : (m:ℝ) = 2 * (d:ℝ) := by exact_mod_cast heq
    have : (d:ℝ) * (Real.pi * 2 / (m:ℝ)) = Real.pi := by
      rw [hmeq]
      field_simp
      ring
    rw [this, Real.sin_pi]
  · exact le_of_lt (sin_idx_neg m d hlt hdm)

/-- Crossing test at the origin against a clockwise-oriented edge: it holds
exactly when the current vertex is above the x-axis and the previous one is
not. -/
theorem rayCrosses_zeroP_iff (a b : Point) (hcross : cross2 a b < 0) :
    rayCrosses zeroP a b ↔ (0 < a.y ∧ ¬ 0 < b.y) := by
  show (Xor' (a.y > (0:ℝ)) (b.y > (0:ℝ))) ∧
      (0:ℝ) < (b.x - a.x) * (0 - a.y) / (b.y - a.y) + a.x ↔ _
  constructor
  · rintro ⟨hstrad, hx⟩
    rcases hstrad with ⟨h1, h2⟩ | ⟨h1, h2⟩
    · exact ⟨h1, h2⟩
    · exfalso
      have h2' : a.y ≤ 0 := not_lt.mp h2
      have hΔ : 0 < b.y - a.y := by linarith
      have hne : b.y - a.y ≠ 0 := ne_of_gt hΔ
      have hid : (b.x - a.x) * (0 - a.y) / (b.y - a.y) + a.x
          = cross2 a b / (b.y - a.y) := by
        simp only [cross2]
        field_simp
        ring
      rw [hid] at hx
      have := div_neg_of_neg_of_pos hcross hΔ
      linarith
  · rintro ⟨h1, h2⟩
    have h2' : b.y ≤ 0 := not_lt.mp h2
    have hΔ : b.y - a.y < 0 := by linarith
    have hne : b.y - a.y ≠ 0 := ne_of_lt hΔ
    refine ⟨Or.inl ⟨h1, h2⟩, ?_⟩
    have hid : (b.x - a.x) * (0 - a.y) / (b.y - a.y) + a.x
        = cross2 a b / (b.y - a.y) := by
      simp only [cross2]
      field_simp
      ring
    rw [hid]
    exact div_pos_of_neg_of_neg hcross hΔ

/-- A polar vertex lies strictly above the x-axis iff its index is in the
open upper quarter-to-three-quarter band. -/
theorem pvtx_y_pos_iff (m : ℕ) (hm : 0 < m) (r : ℕ → ℝ) (i : ℕ)
    (hi : i < m) (hri : 0 < r i) :
    0 < (pvtx m r i).y ↔ (m < 4 * i ∧ 4 * i < 3 * m) := by
  have hy : (pvtx m r i).y
      = Real.sin (((i : ℝ) / (m : ℝ)) * Real.pi * 2 - Real.pi / 2) * r i :=
    rfl
  rw [hy]
  have hsin : Real.sin (((i : ℝ) / (m : ℝ)) * Real.pi * 2 - Real.pi / 2)
      = - Real.cos (((i : ℝ) / (m : ℝ)) * Real.pi * 2) := by
    rw [Real.sin_sub]
    simp [Real.sin_pi_div_two, Real.cos_pi_div_two]
  rw [hsin]
  have hm' : (0:ℝ) < (m:ℝ) := by exact_mod_cast hm
  constructor
  · intro h
    have hcos : Real.cos (((i : ℝ) / (m : ℝ)) * Real.pi * 2) < 0 := by
      by_contra hc
      push_neg at hc
      nlinarith [mul_nonneg hc (le_of_lt hri)]
    constructor
    · by_contra hle
      push_neg at hle
      have h4 : 4 * (i:ℝ) ≤ (m:ℝ) := by exact_mod_cast hle
      have hx0 : 0 ≤ ((i : ℝ) / (m : ℝ)) * Real.pi * 2 := by positivity
      have hx1 : ((i : ℝ) / (m : ℝ)) * Real.pi * 2 ≤ Real.pi / 2 := by
        rw [div_mul_eq_mul_div, div_mul_eq_mul_div,
          div_le_div_iff hm' two_pos]
        nlinarith [Real.pi_pos]
      have := Real.cos_nonneg_of_mem_Icc
        (Set.mem_Icc.mpr ⟨by linarith, hx1⟩)
      linarith
    · by_contra hle
      push_neg at hle
      have h4 : 3 * (m:ℝ) ≤ 4 * (i:ℝ) := by exact_mod_cast hle
      have hi' : (i:ℝ) < (m:ℝ) := by exact_mod_cast hi
      have hx1 : 3 * Real.pi / 2 ≤ ((i : ℝ) / (m : ℝ)) * Real.pi * 2 := by
        rw [div_mul_eq_mul_div, div_mul_eq_mul_div,
          div_le_div_iff two_pos hm']
        nlinarith [Real.pi_pos]
      have hx2 : ((i : ℝ) / (m : ℝ)) * Real.pi * 2 < 2 * Real.pi := by
        rw [div_mul_eq_mul_div, div_mul_eq_mul_div, div_lt_iff hm']
        nlinarith [Real.pi_pos]
      have hcge : 0 ≤ Real.cos (((i : ℝ) / (m : ℝ)) * Real.pi * 2) := by
        rw [← Real.cos_sub_two_pi]
        apply Real.cos_nonneg_of_mem_Icc
        refine Set.mem_Icc.mpr ⟨by linarith, by linarith⟩
      linarith
  · rintro ⟨h1, h2⟩
    have h1' : (m:ℝ) < 4 * (i:ℝ) := by exact_mod_cast h1
    have h2' : 4 * (i:ℝ) < 3 * (m:ℝ) := by exact_mod_cast h2
    have hx1 : Real.pi / 2 < ((i : ℝ) / (m : ℝ)) * Real.pi * 2 := by
      rw [div_mul_eq_mul_div, div_mul_eq_mul_div, div_lt_div_iff two_pos hm']
      nlinarith [Real.pi_pos]
    have hx2 : ((i : ℝ) / (m : ℝ)) * Real.pi * 2 < Real.pi + Real.pi / 2 := by
      rw [div_mul_eq_mul_div, div_mul_eq_mul_div, div_lt_iff hm']
      nlinarith [Real.pi_pos]
    have hneg := Real.cos_neg_of_pi_div_two_lt_of_lt hx1 (by linarith)
    nlinarith [mul_pos (neg_pos.mpr hneg) hri]

set_option maxHeartbeats 800000 in
/-- The origin is accepted by the even-odd ray cast against any polar
polygon with positive radii: exactly one edge (the unique upward
transition through the x-axis) crosses the rightward ray. -/
theorem rayCast_origin (m : ℕ) (hm : 3 ≤ m) (r : ℕ → ℝ)
    (hr : ∀ i, i < m → 0 < r i) :
    rayCast zeroP ((List.range m).map (fun i => pvtx m r i)) := by
  have hcross : ∀ i, i < m →
      cross2 (pvtx m r i) (pvtx m r (cycPrev m i)) < 0 := by
    intro i hi
    rw [cross2_pvtx m (by omega) r r i (cycPrev m i) hi
      (cycPrev_lt m i (by omega) hi)]
    have hne : cycPrev m i ≠ i := by
      unfold cycPrev
      split <;> omega
    have h1 := idxDist_cycPrev_self m i (by omega) hi
    have h2 := idxDist_anti m i (cycPrev m i) hi
      (cycPrev_lt m i (by omega) hi) (Ne.symm hne)
    have hd : idxDist m i (cycPrev m i) = m - 1 := by omega
    rw [hd]
    have hsin : Real.sin (((m - 1 : ℕ):ℝ) * (Real.pi * 2 / (m:ℝ))) < 0 :=
      sin_idx_neg m (m - 1) (by omega) (by omega)
    exact mul_neg_of_pos_of_neg
      (mul_pos (hr i hi) (hr (cycPrev m i) (cycPrev_lt m i (by omega) hi)))
      hsin
  have habove : ∀ i, i < m →
      (0 < (pvtx m r i).y ↔ (m < 4 * i ∧ 4 * i < 3 * m)) :=
    fun i hi => pvtx_y_pos_iff m (by omega) r i hi (hr i hi)
  obtain ⟨n, rfl⟩ : ∃ n, m = n + 1 := ⟨m - 1, by omega⟩
  rw [rayCast_iff_listXor, edgePairs_map_range, List.map_map]
  refine (listXor_eq_single
    (fun i => rayCrosses zeroP (pvtx (n + 1) r i)
      (pvtx (n + 1) r (cycPrev (n + 1) i)))
    (n + 1) ((n + 1) / 4 + 1) (by omega) ?_).mpr ?_
  · intro i hi hne hf
    rw [rayCrosses_zeroP_iff _ _ (hcross i hi)] at hf
    obtain ⟨hyi, hyp⟩ := hf
    have h1 := (habove i hi).mp hyi
    have hi0 : i ≠ 0 := by omega
    have hp : cycPrev (n + 1) i = i - 1 := by
      unfold cycPrev
      rw [if_neg hi0]
    rw [hp] at hyp
    have h2 : ¬ ((n + 1) < 4 * (i - 1) ∧ 4 * (i - 1) < 3 * (n + 1)) := by
      intro hc
      exact hyp ((habove (i - 1) (by omega)).mpr hc)
    omega
  · show rayCrosses zeroP (pvtx (n + 1) r ((n + 1) / 4 + 1))
      (pvtx (n + 1) r (cycPrev (n + 1) ((n + 1) / 4 + 1)))
    rw [rayCrosses_zeroP_iff _ _ (hcross ((n + 1) / 4 + 1) (by omega))]
    constructor
    · exact (habove ((n + 1) / 4 + 1) (by omega)).mpr (by omega)
    · intro hy
      have hp : cycPrev (n + 1) ((n + 1) / 4 + 1) = (n + 1) / 4 := by
        unfold cycPrev
        rw [if_neg (by omega)]
        omega
      rw [hp] at hy
      have := (habove ((n + 1) / 4) (by omega)).mp hy
      omega

theorem idxDist_eq_one (m u v : ℕ) (hu : u < m) (hv : v < m)
    (h : idxDist m u v = 1) : v = succIdx m u := by
  unfold idxDist at h
  unfold succIdx
  split at h <;> split <;> omega

set_option maxHeartbeats 1600000 in
/-- Points strictly between the center and the `k`-th vertex of a polar
polygon are accepted by the even-odd ray cast. -/
theorem rayCast_polar_spoke (m : ℕ) (hm : 3 ≤ m) (r : ℕ → ℝ)
    (hr : ∀ i, i < m → 0 < r i) (k : ℕ) (hk : k < m) (c : ℝ)
    (hc : 0 < c) (hck : c < r k) :
    rayCast (pvtx m (fun _ => c) k)
      ((List.range m).map (fun i => pvtx m r i)) := by
  have hω : ∀ i, i < m →
      0 < cross2 (pvtx m r (cycPrev m i)) (pvtx m r i) := by
    intro i hi
    rw [cross2_pvtx m (by omega) r r _ i (cycPrev_lt m i (by omega) hi) hi,
      idxDist_cycPrev_self m i (by omega) hi]
    exact mul_pos
      (mul_pos (hr _ (cycPrev_lt m i (by omega) hi)) (hr i hi))
      (sin_idx_pos m 1 (by omega) (by omega))
  have hrk := hr k hk
  have ht0 : 0 < c / r k := div_pos hc hrk
  have ht1 : c / r k < 1 := (div_lt_one hrk).mpr hck
  have hx : (pvtx m (fun _ => c) k).x
      = zeroP.x + (c / r k) * ((pvtx m r k).x - zeroP.x) := by
    simp only [pvtx, zeroP]
    field_simp
    ring
  have hy : (pvtx m (fun _ => c) k).y
      = zeroP.y + (c / r k) * ((pvtx m r k).y - zeroP.y) := by
    simp only [pvtx, zeroP]
    field_simp
    ring
  have hdk : idxDist m k (cycPrev m k) = m - 1 := by
    have hne : cycPrev m k ≠ k := by
      unfold cycPrev
      split <;> omega
    have h1 := idxDist_cycPrev_self m k (by omega) hk
    have h2 := idxDist_anti m k (cycPrev m k) hk
      (cycPrev_lt m k (by omega) hk) (Ne.symm hne)
    omega
  have hU : cross2 (subP (pvtx m r k) zeroP)
      (subP (pvtx m r (cycPrev m k)) zeroP) < 0 := by
    rw [subP_zeroP, subP_zeroP,
      cross2_pvtx m (by omega) r r k _ hk (cycPrev_lt m k (by omega) hk),
      hdk]
    exact mul_neg_of_pos_of_neg
      (mul_pos hrk (hr _ (cycPrev_lt m k (by omega) hk)))
      (sin_idx_neg m (m - 1) (by omega) (by omega))
  have hV : 0 < cross2 (subP (pvtx m r k) zeroP)
      (subP (pvtx m r (succIdx m k)) zeroP) := by
    rw [subP_zeroP, subP_zeroP,
      cross2_pvtx m (by omega) r r k _ hk (succIdx_lt m k (by omega) hk),
      idxDist_succIdx_self m k (by omega) hk]
    exact mul_pos (mul_pos hrk (hr _ (succIdx_lt m k (by omega) hk)))
      (sin_idx_pos m 1 (by omega) (by omega))
  have hpair := triXor_pair_on_edge (pvtx m (fun _ => c) k) zeroP
    (pvtx m r k) (pvtx m r (cycPrev m k)) (pvtx m r (succIdx m k))
    (c / r k) ht0 ht1 hx hy hU hV
  have hpairx : Xor'
      (triXor (pvtx m (fun _ => c) k) zeroP (pvtx m r (cycPrev m k))
        (pvtx m r k))
      (triXor (pvtx m (fun _ => c) k) zeroP
        (pvtx m r (cycPrev m (succIdx m k))) (pvtx m r (succIdx m k))) := by
    rw [cycPrev_succIdx m k hk]
    exact hpair
  have huniq : ∀ i, i < m → i ≠ k → i ≠ succIdx m k →
      ¬ triXor (pvtx m (fun _ => c) k) zeroP (pvtx m r (cycPrev m i))
        (pvtx m r i) := by
    intro i hi hne1 hne2
    have helt := idxDist_lt m k i hk hi
    have he0 : idxDist m k i ≠ 0 :=
      fun h => hne1 (idxDist_eq_zero m k i hk hi h).symm
    have he1 : idxDist m k i ≠ 1 :=
      fun h => hne2 (idxDist_eq_one m k i hk hi h)
    have hanti := idxDist_anti m k i hk hi (fun h => hne1 h.symm)
    rcases le_or_lt (2 * idxDist m k i) m with hcase | hcase
    · -- the point is angularly before the sector of triangle `i`
      apply not_triXor_of_negC
      · rw [subP_zeroP, subP_zeroP]
        exact hω i hi
      · rw [subP_zeroP, subP_zeroP,
          cross2_pvtx m (by omega) r (fun _ => c) _ k
            (cycPrev_lt m i (by omega) hi) hk,
          idxDist_cycPrev_left m i k (by omega) hi hk (by omega)]
        have hs : Real.sin (((idxDist m i k + 1 : ℕ):ℝ)
            * (Real.pi * 2 / (m:ℝ))) < 0 :=
          sin_idx_neg m (idxDist m i k + 1) (by omega) (by omega)
        exact mul_neg_of_pos_of_neg
          (mul_pos (hr _ (cycPrev_lt m i (by omega) hi)) hc) hs
    · -- the point is angularly past the sector of triangle `i`
      apply not_triXor_of_negB
      · rw [subP_zeroP, subP_zeroP]
        exact hω i hi
      · rw [cross2_subP_zeroP_left,
          cross2_pvtx m (by omega) (fun _ => c) r k i hk hi]
        have hs : Real.sin (((idxDist m k i : ℕ):ℝ)
            * (Real.pi * 2 / (m:ℝ))) < 0 :=
          sin_idx_neg m (idxDist m k i) (by omega) (by omega)
        exact mul_neg_of_pos_of_neg (mul_pos hc (hr i hi)) hs
  have hklt := succIdx_lt m k (by omega) hk
  have hkne : k ≠ succIdx m k := by
    unfold succIdx
    split <;> omega
  obtain ⟨n, rfl⟩ : ∃ n, m = n + 1 := ⟨m - 1, by omega⟩
  rw [rayCast_eq_fanXor]
  exact (listXor_eq_pair
    (fun i => triXor (pvtx (n + 1) (fun _ => c) k) zeroP
      (pvtx (n + 1) r (cycPrev (n + 1) i)) (pvtx (n + 1) r i))
    (n + 1) k (succIdx (n + 1) k) hk hklt hkne huniq).mpr hpairx

set_option maxHeartbeats 1600000 in
/-- Points strictly inside one fan triangle of a polar polygon are
accepted by the even-odd ray cast. -/
theorem rayCast_polar_interior (m : ℕ) (hm : 3 ≤ m) (r : ℕ → ℝ)
    (hr : ∀ i, i < m → 0 < r i) (i₀ : ℕ) (hi₀ : i₀ < m) (α β : ℝ)
    (hα : 0 < α) (hβ : 0 < β) (hsum : α + β < 1) :
    rayCast
      (addP (smulP α (pvtx m r (cycPrev m i₀))) (smulP β (pvtx m r i₀)))
      ((List.range m).map (fun i => pvtx m r i)) := by
  have hω : ∀ i, i < m →
      0 < cross2 (pvtx m r (cycPrev m i)) (pvtx m r i) := by
    intro i hi
    rw [cross2_pvtx m (by omega) r r _ i (cycPrev_lt m i (by omega) hi) hi,
      idxDist_cycPrev_self m i (by omega) hi]
    exact mul_pos
      (mul_pos (hr _ (cycPrev_lt m i (by omega) hi)) (hr i hi))
      (sin_idx_pos m 1 (by omega) (by omega))
  have hfmain : triXor
      (addP (smulP α (pvtx m r (cycPrev m i₀))) (smulP β (pvtx m r i₀)))
      zeroP (pvtx m r (cycPrev m i₀)) (pvtx m r i₀) := by
    apply triXor_of_strict_interior _ _ _ _ (1 - α - β) α β
      (by linarith) hα hβ (by ring)
    · simp only [addP, smulP, zeroP]
      ring
    · simp only [addP, smulP, zeroP]
      ring
    · rw [subP_zeroP, subP_zeroP]
      exact ne_of_gt (hω i₀ hi₀)
  have huniq : ∀ j, j < m → j ≠ i₀ →
      ¬ triXor
        (addP (smulP α (pvtx m r (cycPrev m i₀))) (smulP β (pvtx m r i₀)))
        zeroP (pvtx m r (cycPrev m j)) (pvtx m r j) := by
    intro j hj hne
    have hωj : 0 < cross2 (subP (pvtx m r (cycPrev m j)) zeroP)
        (subP (pvtx m r j) zeroP) := by
      rw [subP_zeroP, subP_zeroP]
      exact hω j hj
    have helt := idxDist_lt m i₀ j hi₀ hj
    have he0 : idxDist m i₀ j ≠ 0 :=
      fun h => hne (idxDist_eq_zero m i₀ j hi₀ hj h).symm
    have hanti := idxDist_anti m i₀ j hi₀ hj (fun h => hne h.symm)
    have hrr1 := hr _ (cycPrev_lt m j (by omega) hj)
    have hrr2 := hr _ (cycPrev_lt m i₀ (by omega) hi₀)
    have hrr3 := hr j hj
    have hrr4 := hr i₀ hi₀
    by_cases he1 : idxDist m i₀ j = 1
    · -- `j` is the next sector: certificate against the spoke at `i₀`
      have hjs : j = succIdx m i₀ := idxDist_eq_one m i₀ j hi₀ hj he1
      apply not_triXor_of_negC _ _ _ _ hωj
      rw [subP_zeroP, subP_zeroP, hjs, cycPrev_succIdx m i₀ hi₀,
        cross2_comb_right]
      have hz : cross2 (pvtx m r i₀) (pvtx m r i₀) = 0 := by
        simp only [cross2]
        ring
      have hd : idxDist m i₀ (cycPrev m i₀) = m - 1 := by
        have hne' : cycPrev m i₀ ≠ i₀ := by
          unfold cycPrev
          split <;> omega
        have h1 := idxDist_cycPrev_self m i₀ (by omega) hi₀
        have h2 := idxDist_anti m i₀ (cycPrev m i₀) hi₀
          (cycPrev_lt m i₀ (by omega) hi₀) (Ne.symm hne')
        omega
      rw [hz, cross2_pvtx m (by omega) r r i₀ _ hi₀
        (cycPrev_lt m i₀ (by omega) hi₀), hd]
      have hs := sin_idx_neg m (m - 1) (by omega) (by omega)
      have ht1 : α * (r i₀ * r (cycPrev m i₀)
          * Real.sin (((m - 1 : ℕ):ℝ) * (Real.pi * 2 / (m:ℝ)))) < 0 :=
        mul_neg_of_pos_of_neg hα
          (mul_neg_of_pos_of_neg (mul_pos hrr4 hrr2) hs)
      linarith
    · by_cases hem : idxDist m i₀ j = m - 1
      · -- `j` is the previous sector: certificate against the spoke at
        -- `cycPrev i₀`
        have hji : i₀ = succIdx m j := by
          apply idxDist_eq_one m j i₀ hj hi₀
          omega
        have hjp : j = cycPrev m i₀ := by
          rw [hji, cycPrev_succIdx m j hj]
        apply not_triXor_of_negB _ _ _ _ hωj
        rw [cross2_subP_zeroP_left, hjp, cross2_comb_left]
        have hz : cross2 (pvtx m r (cycPrev m i₀)) (pvtx m r (cycPrev m i₀))
            = 0 := by
          simp only [cross2]
          ring
        have hd : idxDist m i₀ (cycPrev m i₀) = m - 1 := by
          have hne' : cycPrev m i₀ ≠ i₀ := by
            unfold cycPrev
            split <;> omega
          have h1 := idxDist_cycPrev_self m i₀ (by omega) hi₀
          have h2 := idxDist_anti m i₀ (cycPrev m i₀) hi₀
            (cycPrev_lt m i₀ (by omega) hi₀) (Ne.symm hne')
          omega
        rw [hz, cross2_pvtx m (by omega) r r i₀ _ hi₀
          (cycPrev_lt m i₀ (by omega) hi₀), hd]
        have hs := sin_idx_neg m (m - 1) (by omega) (by omega)
        have ht2 : β * (r i₀ * r (cycPrev m i₀)
            * Real.sin (((m - 1 : ℕ):ℝ) * (Real.pi * 2 / (m:ℝ)))) < 0 :=
          mul_neg_of_pos_of_neg hβ
            (mul_neg_of_pos_of_neg (mul_pos hrr4 hrr2) hs)
        linarith
      · rcases le_or_lt (2 * idxDist m i₀ j) m with hcase | hcase
        · -- the sector of `j` ends angularly before the point
          apply not_triXor_of_negC _ _ _ _ hωj
          rw [subP_zeroP, subP_zeroP, cross2_comb_right,
            cross2_pvtx m (by omega) r r _ _
              (cycPrev_lt m j (by omega) hj)
              (cycPrev_lt m i₀ (by omega) hi₀),
            cross2_pvtx m (by omega) r r _ _
              (cycPrev_lt m j (by omega) hj) hi₀,
            idxDist_cycPrev_both m j i₀ hj hi₀,
            idxDist_cycPrev_left m j i₀ (by omega) hj hi₀ (by omega)]
          have hs1 := sin_idx_nonpos m (idxDist m j i₀) (by omega) (by omega)
          have hs2 := sin_idx_neg m (idxDist m j i₀ + 1) (by omega) (by omega)
          have ht1 : α * (r (cycPrev m j) * r (cycPrev m i₀)
              * Real.sin ((idxDist m j i₀ : ℝ)
                  * (Real.pi * 2 / (m:ℝ)))) ≤ 0 := by
            apply mul_nonpos_iff.mpr
            left
            exact ⟨le_of_lt hα, mul_nonpos_iff.mpr
              (Or.inl ⟨le_of_lt (mul_pos hrr1 hrr2), hs1⟩)⟩
          have ht2 : β * (r (cycPrev m j) * r i₀
              * Real.sin (((idxDist m j i₀ + 1 : ℕ):ℝ)
                  * (Real.pi * 2 / (m:ℝ)))) < 0 :=
            mul_neg_of_pos_of_neg hβ
              (mul_neg_of_pos_of_neg (mul_pos hrr1 hrr4) hs2)
          linarith
        · -- the sector of `j` starts angularly past the point
          apply not_triXor_of_negB _ _ _ _ hωj
          rw [cross2_subP_zeroP_left, cross2_comb_left,
            cross2_pvtx m (by omega) r r _ _
              (cycPrev_lt m i₀ (by omega) hi₀) hj,
            cross2_pvtx m (by omega) r r _ _ hi₀ hj,
            idxDist_cycPrev_left m i₀ j (by omega) hi₀ hj (by omega)]
          have hs1 := sin_idx_nonpos m (idxDist m i₀ j + 1)
            (by omega) (by omega)
          have hs2 := sin_idx_neg m (idxDist m i₀ j) (by omega) (by omega)
          have ht1 : α * (r (cycPrev m i₀) * r j
              * Real.sin (((idxDist m i₀ j + 1 : ℕ):ℝ)
                  * (Real.pi * 2 / (m:ℝ)))) ≤ 0 := by
            apply mul_nonpos_iff.mpr
            left
            exact ⟨le_of_lt hα, mul_nonpos_iff.mpr
              (Or.inl ⟨le_of_lt (mul_pos hrr2 hrr3), hs1⟩)⟩
          have ht2 : β * (r i₀ * r j
              * Real.sin ((idxDist m i₀ j : ℝ)
                  * (Real.pi * 2 / (m:ℝ)))) < 0 :=
            mul_neg_of_pos_of_neg hβ
              (mul_neg_of_pos_of_neg (mul_pos hrr4 hrr3) hs2)
          linarith
  obtain ⟨n, rfl⟩ : ∃ n, m = n + 1 := ⟨m - 1, by omega⟩
  rw [rayCast_eq_fanXor]
  exact (listXor_eq_single
    (fun i => triXor
      (addP (smulP α (pvtx (n + 1) r (cycPrev (n + 1) i₀)))
        (smulP β (pvtx (n + 1) r i₀)))
      zeroP (pvtx (n + 1) r (cycPrev (n + 1) i)) (pvtx (n + 1) r i))
    (n + 1) i₀ hi₀ (fun i hi hne => huniq i hi hne)).mpr hfmain

theorem pointExt {p q : Point} (hx : p.x = q.x) (hy : p.y = q.y) :
    p = q := by
  cases p
  cases q
  rw [Point.mk.injEq]
  exact ⟨hx, hy⟩

set_option maxHeartbeats 1600000 in
/-- Any point accepted by the even-odd ray cast against a polar polygon
lies in the closed fan triangle of some sector. -/
theorem fanRep_of_rayCast (m : ℕ) (hm : 3 ≤ m) (r : ℕ → ℝ)
    (hr : ∀ i, i < m → 0 < r i) (p : Point)
    (h : rayCast p ((List.range m).map (fun i => pvtx m r i))) :
    ∃ i, i < m ∧ ∃ α β : ℝ, 0 ≤ α ∧ 0 ≤ β ∧ α + β ≤ 1 ∧
      p = addP (smulP α (pvtx m r (cycPrev m i))) (smulP β (pvtx m r i)) := by
  have hω : ∀ i, i < m →
      0 < cross2 (pvtx m r (cycPrev m i)) (pvtx m r i) := by
    intro i hi
    rw [cross2_pvtx m (by omega) r r _ i (cycPrev_lt m i (by omega) hi) hi,
      idxDist_cycPrev_self m i (by omega) hi]
    exact mul_pos
      (mul_pos (hr _ (cycPrev_lt m i (by omega) hi)) (hr i hi))
      (sin_idx_pos m 1 (by omega) (by omega))
  by_cases hex : ∃ i, i < m ∧
      0 ≤ cross2 (subP (pvtx m r i) (pvtx m r (cycPrev m i)))
        (subP p (pvtx m r (cycPrev m i))) ∧
      0 ≤ cross2 p (pvtx m r i) ∧
      0 ≤ cross2 (pvtx m r (cycPrev m i)) p
  · obtain ⟨i, hi, hA0, hB0, hC0⟩ := hex
    have hωi := hω i hi
    have hsumi : cross2 (subP (pvtx m r i) (pvtx m r (cycPrev m i)))
          (subP p (pvtx m r (cycPrev m i)))
        + cross2 p (pvtx m r i) + cross2 (pvtx m r (cycPrev m i)) p
        = cross2 (pvtx m r (cycPrev m i)) (pvtx m r i) := by
      simp only [cross2, subP]
      ring
    have hrx : cross2 p (pvtx m r i) * (pvtx m r (cycPrev m i)).x
        + cross2 (pvtx m r (cycPrev m i)) p * (pvtx m r i).x
        = cross2 (pvtx m r (cycPrev m i)) (pvtx m r i) * p.x := by
      simp only [cross2]
      ring
    have hry : cross2 p (pvtx m r i) * (pvtx m r (cycPrev m i)).y
        + cross2 (pvtx m r (cycPrev m i)) p * (pvtx m r i).y
        = cross2 (pvtx m r (cycPrev m i)) (pvtx m r i) * p.y := by
      simp only [cross2]
      ring
    refine ⟨i, hi,
      cross2 p (pvtx m r i)
        / cross2 (pvtx m r (cycPrev m i)) (pvtx m r i),
      cross2 (pvtx m r (cycPrev m i)) p
        / cross2 (pvtx m r (cycPrev m i)) (pvtx m r i),
      div_nonneg hB0 (le_of_lt hωi), div_nonneg hC0 (le_of_lt hωi),
      ?_, ?_⟩
    · rw [div_add_div_same, div_le_one hωi]
      linarith
    · have hωne := ne_of_gt hωi
      refine pointExt ?_ ?_
      · simp only [addP, smulP]
        field_simp
        linarith [hrx]
      · simp only [addP, smulP]
        field_simp
        linarith [hry]
  · exfalso
    push_neg at hex
    have hall : ∀ i, i < m →
        ¬ triXor p zeroP (pvtx m r (cycPrev m i)) (pvtx m r i) := by
      intro i hi
      have hωi : 0 < cross2 (subP (pvtx m r (cycPrev m i)) zeroP)
          (subP (pvtx m r i) zeroP) := by
        rw [subP_zeroP, subP_zeroP]
        exact hω i hi
      by_cases hA0 : 0 ≤ cross2 (subP (pvtx m r i) (pvtx m r (cycPrev m i)))
          (subP p (pvtx m r (cycPrev m i)))
      · by_cases hB0 : 0 ≤ cross2 p (pvtx m r i)
        · apply not_triXor_of_negC _ _ _ _ hωi
          rw [subP_zeroP, subP_zeroP]
          exact hex i hi hA0 hB0
        · apply not_triXor_of_negB _ _ _ _ hωi
          rw [cross2_subP_zeroP_left]
          exact not_le.mp hB0
      · exact not_triXor_of_negA _ _ _ _ hωi (not_le.mp hA0)
    obtain ⟨n, rfl⟩ : ∃ n, m = n + 1 := ⟨m - 1, by omega⟩
    rw [rayCast_eq_fanXor] at h
    refine listXor_false_of_all_false _ ?_ h
    intro q hq
    rw [List.mem_map] at hq
    obtain ⟨i, hirange, rfl⟩ := hq
    rw [List.mem_range] at hirange
    exact hall i hirange

/-- Any point of the closed fan triangle of a sector, strictly inside the
polygon radially, is accepted by the even-odd ray cast. -/
theorem rayCast_polar_of_rep (m : ℕ) (hm : 3 ≤ m) (r : ℕ → ℝ)
    (hr : ∀ i, i < m → 0 < r i) (i : ℕ) (hi : i < m) (α β : ℝ)
    (hα : 0 ≤ α) (hβ : 0 ≤ β) (hs : α + β < 1) :
    rayCast (addP (smulP α (pvtx m r (cycPrev m i))) (smulP β (pvtx m r i)))
      ((List.range m).map (fun j => pvtx m r j)) := by
  rcases eq_or_lt_of_le hα with hα0 | hα0 <;>
    rcases eq_or_lt_of_le hβ with hβ0 | hβ0
  · have hp : addP (smulP α (pvtx m r (cycPrev m i)))
        (smulP β (pvtx m r i)) = zeroP := by
      rw [← hα0, ← hβ0]
      refine pointExt ?_ ?_ <;> simp [addP, smulP, zeroP]
    rw [hp]
    exact rayCast_origin m hm r hr
  · have hp : addP (smulP α (pvtx m r (cycPrev m i)))
        (smulP β (pvtx m r i)) = pvtx m (fun _ => β * r i) i := by
      rw [← hα0]
      refine pointExt ?_ ?_ <;>
        (simp only [addP, smulP, pvtx]; ring)
    rw [hp]
    exact rayCast_polar_spoke m hm r hr i hi (β * r i)
      (mul_pos hβ0 (hr i hi)) (by nlinarith [hr i hi])
  · have hlt := cycPrev_lt m i (by omega) hi
    have hp : addP (smulP α (pvtx m r (cycPrev m i)))
        (smulP β (pvtx m r i))
        = pvtx m (fun _ => α * r (cycPrev m i)) (cycPrev m i) := by
      rw [← hβ0]
      refine pointExt ?_ ?_ <;>
        (simp only [addP, smulP, pvtx]; ring)
    rw [hp]
    exact rayCast_polar_spoke m hm r hr (cycPrev m i) hlt
      (α * r (cycPrev m i)) (mul_pos hα0 (hr _ hlt))
      (by nlinarith [hr _ hlt])
  · exact rayCast_polar_interior m hm r hr i hi α β hα0 hβ0 hs

/-- The acceptance region of the even-odd ray cast against a polar polygon
is closed under shrinking toward the center. -/
theorem rayCast_polar_smul (m : ℕ) (hm : 3 ≤ m) (r : ℕ → ℝ)
    (hr : ∀ i, i < m → 0 < r i) (p : Point) (t : ℝ) (ht0 : 0 ≤ t)
    (ht1 : t < 1)
    (h : rayCast p ((List.range m).map (fun i => pvtx m r i))) :
    rayCast (smulP t p) ((List.range m).map (fun i => pvtx m r i)) := by
  obtain ⟨i, hi, α, β, hα, hβ, hs, hp⟩ := fanRep_of_rayCast m hm r hr p h
  have hp' : smulP t p
      = addP (smulP (t * α) (pvtx m r (cycPrev m i)))
          (smulP (t * β) (pvtx m r i)) := by
    rw [hp]
    refine pointExt ?_ ?_ <;> (simp only [addP, smulP]; ring)
  rw [hp']
  apply rayCast_polar_of_rep m hm r hr i hi (t * α) (t * β)
    (mul_nonneg ht0 hα) (mul_nonneg ht0 hβ)
  nlinarith [mul_nonneg ht0 (by linarith : (0:ℝ) ≤ 1 - (α + β))]

/-! ### Shape-level geometry lemmas

The point-in-shape test derotates its query point; for vertices produced
by `getVertices` (which rotates by the same angle), the derotated point is
the rotation-free vertex. Vertex lists are linear in the size. -/

theorem local_x_rotatePoint (rot : ℝ) (q : Point) :
    (rotatePoint rot q).x * Real.cos (-rot)
      - (rotatePoint rot q).y * Real.sin (-rot) = q.x := by
  simp only [rotatePoint, Real.cos_neg, Real.sin_neg]
  linear_combination q.x * Real.sin_sq_add_cos_sq rot

theorem local_y_rotatePoint (rot : ℝ) (q : Point) :
    (rotatePoint rot q).x * Real.sin (-rot)
      + (rotatePoint rot q).y * Real.cos (-rot) = q.y := by
  simp only [rotatePoint, Real.cos_neg, Real.sin_neg]
  linear_combination q.y * Real.sin_sq_add_cos_sq rot

theorem local_x_polar (θ rot ρ : ℝ) :
    (Real.cos (θ + rot) * ρ) * Real.cos (-rot)
      - (Real.sin (θ + rot) * ρ) * Real.sin (-rot) = Real.cos θ * ρ := by
  rw [Real.cos_neg, Real.sin_neg, Real.cos_add, Real.sin_add]
  linear_combination (Real.cos θ * ρ) * Real.sin_sq_add_cos_sq rot

theorem local_y_polar (θ rot ρ : ℝ) :
    (Real.cos (θ + rot) * ρ) * Real.sin (-rot)
      + (Real.sin (θ + rot) * ρ) * Real.cos (-rot) = Real.sin θ * ρ := by
  rw [Real.cos_neg, Real.sin_neg, Real.cos_add, Real.sin_add]
  linear_combination (Real.sin θ * ρ) * Real.sin_sq_add_cos_sq rot

theorem sqrt_polar (θ ρ : ℝ) (hρ : 0 ≤ ρ) :
    Real.sqrt ((Real.cos θ * ρ) * (Real.cos θ * ρ)
      + (Real.sin θ * ρ) * (Real.sin θ * ρ)) = ρ := by
  have h : (Real.cos θ * ρ) * (Real.cos θ * ρ)
      + (Real.sin θ * ρ) * (Real.sin θ * ρ) = ρ ^ 2 := by
    linear_combination (ρ ^ 2) * Real.sin_sq_add_cos_sq θ
  rw [h, Real.sqrt_sq hρ]

theorem sqrt_smul (t x y : ℝ) (ht : 0 ≤ t) :
    Real.sqrt ((t * x) * (t * x) + (t * y) * (t * y))
      = t * Real.sqrt (x * x + y * y) := by
  have h : (t * x) * (t * x) + (t * y) * (t * y)
      = t ^ 2 * (x * x + y * y) := by
    ring
  rw [h, Real.sqrt_mul (sq_nonneg t), Real.sqrt_sq ht]

theorem getRegularPolygonVertices_pvtx (sides : ℕ) (size : ℝ) :
    getRegularPolygonVertices sides size 0
      = (List.range sides).map (fun i => pvtx sides (fun _ => size / 2) i) := by
  unfold getRegularPolygonVertices pvtx
  apply List.map_congr_left
  intro i _
  simp only [add_zero]

theorem getStarVertices_pvtx (size : ℝ) :
    getStarVertices size 0 0.4
      = (List.range 10).map (fun i => pvtx 10
          (fun j => if j % 2 = 0 then size / 2 else size / 2 * 0.4) i) := by
  unfold getStarVertices pvtx
  apply List.map_congr_left
  intro i _
  simp only [add_zero, Nat.cast_ofNat]

theorem smulP_one (q : Point) : smulP 1 q = q := by
  refine pointExt ?_ ?_ <;> simp [smulP]

theorem getRegularPolygonVertices_smul (sides : ℕ) (size rot t : ℝ) :
    getRegularPolygonVertices sides (t * size) rot
      = (getRegularPolygonVertices sides size rot).map (smulP t) := by
  unfold getRegularPolygonVertices
  rw [List.map_map]
  apply List.map_congr_left
  intro i _
  refine pointExt ?_ ?_ <;> (simp only [smulP, Function.comp]; ring)

theorem getStarVertices_smul (size rot ir t : ℝ) :
    getStarVertices (t * size) rot ir
      = (getStarVertices size rot ir).map (smulP t) := by
  unfold getStarVertices
  rw [List.map_map]
  apply List.map_congr_left
  intro i _
  by_cases h : i % 2 = 0
  · refine pointExt ?_ ?_ <;>
      (simp only [smulP, Function.comp, if_pos h]; ring)
  · refine pointExt ?_ ?_ <;>
      (simp only [smulP, Function.comp, if_neg h]; ring)

theorem getVertices_smul (sh : Shape) (t : ℝ) :
    getVertices { sh with size := t * sh.size }
      = (getVertices sh).map (smulP t) := by
  obtain ⟨ty, size, rot, col, op⟩ := sh
  cases ty <;> simp only [getVertices]
  case circle =>
    rw [List.map_map]
    apply List.map_congr_left
    intro i _
    refine pointExt ?_ ?_ <;> (simp only [smulP, Function.comp]; ring)
  case square =>
    simp only [List.map_cons, List.map_nil, List.cons.injEq, and_true]
    refine ⟨?_, ?_, ?_, ?_⟩ <;>
      (refine pointExt ?_ ?_ <;> (simp only [rotatePoint, smulP]; ring))
  case triangle => exact getRegularPolygonVertices_smul 3 size rot t
  case rectangle =>
    simp only [List.map_cons, List.map_nil, List.cons.injEq, and_true]
    refine ⟨?_, ?_, ?_, ?_⟩ <;>
      (refine pointExt ?_ ?_ <;> (simp only [rotatePoint, smulP]; ring))
  case pentagon => exact getRegularPolygonVertices_smul 5 size rot t
  case hexagon => exact getRegularPolygonVertices_smul 6 size rot t
  case octagon => exact getRegularPolygonVertices_smul 8 size rot t
  case star => exact getStarVertices_smul size rot 0.4 t
  case diamond =>
    simp only [List.map_cons, List.map_nil, List.cons.injEq, and_true]
    refine ⟨?_, ?_, ?_, ?_⟩ <;>
      (refine pointExt ?_ ?_ <;> (simp only [rotatePoint, smulP]; ring))

theorem scale_le_bound (t a b : ℝ) (ht0 : 0 ≤ t) (ht1 : t ≤ 1)
    (ha : 0 ≤ a) (h : a ≤ b) : t * a ≤ b := by
  nlinarith

theorem regularPolygonContains_smul (sides : ℕ) (hs : 3 ≤ sides)
    (size lx ly t : ℝ) (hsize : 0 ≤ size) (ht0 : 0 ≤ t) (ht1 : t < 1)
    (h : regularPolygonContains sides size lx ly) :
    regularPolygonContains sides size (t * lx) (t * ly) := by
  unfold regularPolygonContains at h ⊢
  have hd0 : 0 ≤ Real.sqrt (lx * lx + ly * ly) := Real.sqrt_nonneg _
  have hds : Real.sqrt (t * lx * (t * lx) + t * ly * (t * ly))
      = t * Real.sqrt (lx * lx + ly * ly) := sqrt_smul t lx ly ht0
  by_cases hq1 : size / 2 + 0.5 < Real.sqrt (lx * lx + ly * ly)
  · rw [if_pos hq1] at h
    exact h.elim
  rw [if_neg hq1] at h
  push_neg at hq1
  have htd : t * Real.sqrt (lx * lx + ly * ly)
      ≤ Real.sqrt (lx * lx + ly * ly) := by nlinarith
  rw [hds, if_neg (not_lt.mpr (by linarith))]
  by_cases hq2 : t * Real.sqrt (lx * lx + ly * ly)
      ≤ size / 2 * Real.cos (Real.pi / (sides : ℝ))
  · rw [if_pos hq2]
    trivial
  · rw [if_neg hq2]
    by_cases hq3 : Real.sqrt (lx * lx + ly * ly)
        ≤ size / 2 * Real.cos (Real.pi / (sides : ℝ))
    · exact absurd (le_trans htd hq3) hq2
    · rw [if_neg hq3] at h
      rw [getRegularPolygonVertices_pvtx] at h ⊢
      have hpt : (⟨t * lx, t * ly⟩ : Point) = smulP t ⟨lx, ly⟩ := by
        refine pointExt ?_ ?_ <;> simp [smulP]
      rw [hpt]
      refine rayCast_polar_smul sides hs (fun _ => (size + 1.0) / 2)
        (fun i _ => by norm_num; linarith) ⟨lx, ly⟩ t ht0 ht1 h

set_option maxHeartbeats 1600000 in
/-- Shrinking the query point toward the origin preserves the
point-in-shape test, for every nonnegatively sized shape. -/
theorem isPointInShape_smul (v : Point) (B : Shape) (t : ℝ) (ht0 : 0 ≤ t)
    (ht1 : t ≤ 1) (hBs : 0 ≤ B.size) (h : isPointInShape v B) :
    isPointInShape (smulP t v) B := by
  rcases eq_or_lt_of_le ht1 with rfl | ht1'
  · rw [smulP_one]
    exact h
  · obtain ⟨ty, size, rot, col, op⟩ := B
    have hBs' : (0:ℝ) ≤ size := hBs
    have hlx : (smulP t v).x * Real.cos (-rot)
        - (smulP t v).y * Real.sin (-rot)
        = t * (v.x * Real.cos (-rot) - v.y * Real.sin (-rot)) := by
      simp only [smulP]
      ring
    have hly : (smulP t v).x * Real.sin (-rot)
        + (smulP t v).y * Real.cos (-rot)
        = t * (v.x * Real.sin (-rot) + v.y * Real.cos (-rot)) := by
      simp only [smulP]
      ring
    cases ty
    case circle =>
      simp only [isPointInShape] at h ⊢
      rw [hlx, hly, sqrt_smul _ _ _ ht0]
      have hd0 := Real.sqrt_nonneg
        ((v.x * Real.cos (-rot) - v.y * Real.sin (-rot))
            * (v.x * Real.cos (-rot) - v.y * Real.sin (-rot))
          + (v.x * Real.sin (-rot) + v.y * Real.cos (-rot))
            * (v.x * Real.sin (-rot) + v.y * Real.cos (-rot)))
      exact scale_le_bound t _ _ ht0 (le_of_lt ht1') hd0 h
    case square =>
      simp only [isPointInShape] at h ⊢
      obtain ⟨h1, h2⟩ := h
      rw [hlx, hly]
      constructor
      · rw [abs_mul, abs_of_nonneg ht0]
        exact scale_le_bound t _ _ ht0 (le_of_lt ht1') (abs_nonneg _) h1
      · rw [abs_mul, abs_of_nonneg ht0]
        exact scale_le_bound t _ _ ht0 (le_of_lt ht1') (abs_nonneg _) h2
    case rectangle =>
      simp only [isPointInShape] at h ⊢
      obtain ⟨h1, h2⟩ := h
      rw [hlx, hly]
      constructor
      · rw [abs_mul, abs_of_nonneg ht0]
        exact scale_le_bound t _ _ ht0 (le_of_lt ht1') (abs_nonneg _) h1
      · rw [abs_mul, abs_of_nonneg ht0]
        exact scale_le_bound t _ _ ht0 (le_of_lt ht1') (abs_nonneg _) h2
    case triangle =>
      simp only [isPointInShape] at h ⊢
      rw [hlx, hly]
      exact regularPolygonContains_smul 3 (by norm_num) size _ _ t hBs'
        ht0 ht1' h
    case pentagon =>
      simp only [isPointInShape] at h ⊢
      rw [hlx, hly]
      exact regularPolygonContains_smul 5 (by norm_num) size _ _ t hBs'
        ht0 ht1' h
    case hexagon =>
      simp only [isPointInShape] at h ⊢
      rw [hlx, hly]
      exact regularPolygonContains_smul 6 (by norm_num) size _ _ t hBs'
        ht0 ht1' h
    case octagon =>
      simp only [isPointInShape] at h ⊢
      rw [hlx, hly]
      exact regularPolygonContains_smul 8 (by norm_num) size _ _ t hBs'
        ht0 ht1' h
    case diamond =>
      simp only [isPointInShape] at h ⊢
      obtain ⟨g1, g2, h⟩ := h
      refine ⟨g1, g2, ?_⟩
      rw [hlx, hly, abs_mul, abs_mul, abs_of_nonneg ht0, mul_div_assoc,
        mul_div_assoc]
      have e1 : 0 ≤ |v.x * Real.cos (-rot) - v.y * Real.sin (-rot)|
          / (size / 2) :=
        div_nonneg (abs_nonneg _) (by linarith)
      have e2 : 0 ≤ |v.x * Real.sin (-rot) + v.y * Real.cos (-rot)|
          / (size * 0.7 / 2) :=
        div_nonneg (abs_nonneg _) (by nlinarith)
      nlinarith [h, e1, e2,
        mul_nonneg (by linarith : (0:ℝ) ≤ 1 - t) (add_nonneg e1 e2)]
    case star =>
      simp only [isPointInShape] at h ⊢
      rw [hlx, hly, getStarVertices_pvtx]
      rw [getStarVertices_pvtx] at h
      have hpt : (⟨t * (v.x * Real.cos (-rot) - v.y * Real.sin (-rot)),
          t * (v.x * Real.sin (-rot) + v.y * Real.cos (-rot))⟩ : Point)
          = smulP t ⟨v.x * Real.cos (-rot) - v.y * Real.sin (-rot),
              v.x * Real.sin (-rot) + v.y * Real.cos (-rot)⟩ := by
        refine pointExt ?_ ?_ <;> simp [smulP]
      rw [hpt]
      refine rayCast_polar_smul 10 (by norm_num) _ ?_ _ t ht0 ht1' h
      intro i _
      by_cases h2 : i % 2 = 0
      · rw [if_pos h2]
        norm_num
        linarith
      · rw [if_neg h2]
        norm_num
        linarith

set_option maxHeartbeats 1600000 in
/-- C7 (amended): containment is reflexive for every shape of any of the
nine types and any rotation, provided the size is nonnegative and, for a
diamond, strictly positive: every vertex (or sampled perimeter point)
produced by `getVertices` tests positive against the shape's own
`isPointInShape` test. The size-0 diamond is excluded because its test
divides by zero half-extents (NaN/Infinity in JS) and rejects every
point. -/
theorem containment_reflexive (S : Shape) (hS : 0 ≤ S.size)
    (hd : S.type = ShapeType.diamond → 0 < S.size) :
    isContained S S := by
  obtain ⟨ty, size, rot, col, op⟩ := S
  have hS' : (0:ℝ) ≤ size := hS
  intro v hv
  cases ty
  case circle =>
    simp only [getVertices] at hv
    rw [List.mem_map] at hv
    obtain ⟨i, hi, rfl⟩ := hv
    simp only [isPointInShape]
    rw [local_x_polar, local_y_polar, sqrt_polar _ _ (by linarith)]
    linarith
  case square =>
    simp only [getVertices] at hv
    rw [List.mem_map] at hv
    obtain ⟨c, hc, rfl⟩ := hv
    simp only [isPointInShape]
    rw [local_x_rotatePoint, local_y_rotatePoint]
    simp at hc
    rcases hc with rfl | rfl | rfl | rfl <;>
      (simp only [abs_le]; constructor <;> constructor <;> linarith)
  case rectangle =>
    simp only [getVertices] at hv
    rw [List.mem_map] at hv
    obtain ⟨c, hc, rfl⟩ := hv
    simp only [isPointInShape]
    rw [local_x_rotatePoint, local_y_rotatePoint]
    simp at hc
    rcases hc with rfl | rfl | rfl | rfl <;>
      (simp only [abs_le]; constructor <;> constructor <;> linarith)
  case triangle =>
    simp only [getVertices, getRegularPolygonVertices] at hv
    rw [List.mem_map] at hv
    obtain ⟨i, hi, rfl⟩ := hv
    rw [List.mem_range] at hi
    simp only [isPointInShape]
    rw [local_x_polar, local_y_polar]
    unfold regularPolygonContains
    rw [sqrt_polar _ _ (by linarith), if_neg (not_lt.mpr (by linarith))]
    by_cases hqa : size / 2 ≤ size / 2 * Real.cos (Real.pi / ((3:ℕ) : ℝ))
    · rw [if_pos hqa]
      trivial
    · rw [if_neg hqa]
      have hspos : 0 < size := by
        rcases eq_or_lt_of_le hS' with h0 | h0
        · exfalso
          apply hqa
          rw [← h0]
          norm_num
        · exact h0
      rw [getRegularPolygonVertices_pvtx]
      show rayCast (pvtx 3 (fun _ => size / 2) i) _
      refine rayCast_polar_spoke 3 (by norm_num) _ (fun j _ => by
          norm_num
          linarith) i hi (size / 2) (by linarith) (by
          norm_num
          linarith)
  case pentagon =>
    simp only [getVertices, getRegularPolygonVertices] at hv
    rw [List.mem_map] at hv
    obtain ⟨i, hi, rfl⟩ := hv
    rw [List.mem_range] at hi
    simp only [isPointInShape]
    rw [local_x_polar, local_y_polar]
    unfold regularPolygonContains
    rw [sqrt_polar _ _ (by linarith), if_neg (not_lt.mpr (by linarith))]
    by_cases hqa : size / 2 ≤ size / 2 * Real.cos (Real.pi / ((5:ℕ) : ℝ))
    · rw [if_pos hqa]
      trivial
    · rw [if_neg hqa]
      have hspos : 0 < size := by
        rcases eq_or_lt_of_le hS' with h0 | h0
        · exfalso
          apply hqa
          rw [← h0]
          norm_num
        · exact h0
      rw [getRegularPolygonVertices_pvtx]
      show rayCast (pvtx 5 (fun _ => size / 2) i) _
      refine rayCast_polar_spoke 5 (by norm_num) _ (fun j _ => by
          norm_num
          linarith) i hi (size / 2) (by linarith) (by
          norm_num
          linarith)
  case hexagon =>
    simp only [getVertices, getRegularPolygonVertices] at hv
    rw [List.mem_map] at hv
    obtain ⟨i, hi, rfl⟩ := hv
    rw [List.mem_range] at hi
    simp only [isPointInShape]
    rw [local_x_polar, local_y_polar]
    unfold regularPolygonContains
    rw [sqrt_polar _ _ (by linarith), if_neg (not_lt.mpr (by linarith))]
    by_cases hqa : size / 2 ≤ size / 2 * Real.cos (Real.pi / ((6:ℕ) : ℝ))
    · rw [if_pos hqa]
      trivial
    · rw [if_neg hqa]
      have hspos : 0 < size := by
        rcases eq_or_lt_of_le hS' with h0 | h0
        · exfalso
          apply hqa
          rw [← h0]
          norm_num
        · exact h0
      rw [getRegularPolygonVertices_pvtx]
      show rayCast (pvtx 6 (fun _ => size / 2) i) _
      refine rayCast_polar_spoke 6 (by norm_num) _ (fun j _ => by
          norm_num
          linarith) i hi (size / 2) (by linarith) (by
          norm_num
          linarith)
  case octagon =>
    simp only [getVertices, getRegularPolygonVertices] at hv
    rw [List.mem_map] at hv
    obtain ⟨i, hi, rfl⟩ := hv
    rw [List.mem_range] at hi
    simp only [isPointInShape]
    rw [local_x_polar, local_y_polar]
    unfold regularPolygonContains
    rw [sqrt_polar _ _ (by linarith), if_neg (not_lt.mpr (by linarith))]
    by_cases hqa : size / 2 ≤ size / 2 * Real.cos (Real.pi / ((8:ℕ) : ℝ))
    · rw [if_pos hqa]
      trivial
    · rw [if_neg hqa]
      have hspos : 0 < size := by
        rcases eq_or_lt_of_le hS' with h0 | h0
        · exfalso
          apply hqa
          rw [← h0]
          norm_num
        · exact h0
      rw [getRegularPolygonVertices_pvtx]
      show rayCast (pvtx 8 (fun _ => size / 2) i) _
      refine rayCast_polar_spoke 8 (by norm_num) _ (fun j _ => by
          norm_num
          linarith) i hi (size / 2) (by linarith) (by
          norm_num
          linarith)
  case star =>
    simp only [getVertices, getStarVertices] at hv
    rw [List.mem_map] at hv
    obtain ⟨i, hi, rfl⟩ := hv
    rw [List.mem_range] at hi
    simp only [isPointInShape]
    rw [local_x_polar, local_y_polar, getStarVertices_pvtx]
    rcases eq_or_lt_of_le hS' with h0 | h0
    · rw [← h0]
      have hz : (⟨Real.cos (((i:ℝ) / 10) * Real.pi * 2 - Real.pi / 2)
            * (if i % 2 = 0 then (0:ℝ) / 2 else 0 / 2 * 0.4),
          Real.sin (((i:ℝ) / 10) * Real.pi * 2 - Real.pi / 2)
            * (if i % 2 = 0 then (0:ℝ) / 2 else 0 / 2 * 0.4)⟩ : Point)
          = zeroP := by
        refine pointExt ?_ ?_ <;>
          (simp only [zeroP]; by_cases h2 : i % 2 = 0 <;>
            simp [h2])
      rw [hz]
      refine rayCast_origin 10 (by norm_num) _ (fun j _ => ?_)
      by_cases h2 : j % 2 = 0 <;> simp [h2] <;> norm_num
    · have hp : (⟨Real.cos (((i:ℝ) / 10) * Real.pi * 2 - Real.pi / 2)
            * (if i % 2 = 0 then size / 2 else size / 2 * 0.4),
          Real.sin (((i:ℝ) / 10) * Real.pi * 2 - Real.pi / 2)
            * (if i % 2 = 0 then size / 2 else size / 2 * 0.4)⟩ : Point)
          = pvtx 10 (fun _ => if i % 2 = 0 then size / 2
              else size / 2 * 0.4) i := by
        simp only [pvtx, Nat.cast_ofNat]
      rw [hp]
      refine rayCast_polar_spoke 10 (by norm_num) _ (fun j _ => ?_) i hi
        (if i % 2 = 0 then size / 2 else size / 2 * 0.4) ?_ ?_
      · by_cases h2 : j % 2 = 0 <;> simp [h2] <;> norm_num <;> linarith
      · by_cases h2 : i % 2 = 0 <;> simp [h2] <;> norm_num <;> linarith
      · by_cases h2 : i % 2 = 0 <;> simp [h2] <;> norm_num <;> linarith
  case diamond =>
    simp only [getVertices] at hv
    rw [List.mem_map] at hv
    obtain ⟨c, hc, rfl⟩ := hv
    have hspos : (0:ℝ) < size := hd rfl
    have hw : (0:ℝ) < size / 2 := by linarith
    have hh : (0:ℝ) < size * 0.7 / 2 := by nlinarith
    simp only [isPointInShape]
    rw [local_x_rotatePoint, local_y_rotatePoint]
    refine ⟨ne_of_gt hw, ne_of_gt hh, ?_⟩
    simp at hc
    rcases hc with rfl | rfl | rfl | rfl <;>
      simp only [abs_neg, abs_zero, zero_div] <;>
      rw [abs_of_nonneg (by linarith)] <;>
      rw [div_self (ne_of_gt (by assumption))] <;>
      norm_num

/-- C7 (counterexample to the original claim): the size-0 diamond fails
its own point-in-shape test. Its half-width and half-height are both 0,
so the JS test divides by zero — `0/0` is NaN, a nonzero numerator gives
Infinity — and the `<=` comparison is false for every query point, hence
`isContained S S` is false although the size 0 lies in the claimed
domain. -/
theorem containment_reflexive_diamond_zero :
    ¬ isContained
      ⟨ShapeType.diamond, 0, 0, Color.hex ("#3b82f6"), 1⟩
      ⟨ShapeType.diamond, 0, 0, Color.hex ("#3b82f6"), 1⟩ := by
  intro h
  have hp := h (rotatePoint 0 ⟨0, -((0:ℝ) * 0.7 / 2)⟩) (by
    simp only [getVertices]
    exact List.mem_map_of_mem (rotatePoint 0) (List.mem_cons_self _ _))
  simp only [isPointInShape] at hp
  exact hp.1 (by norm_num)

theorem containment_reflexive_witness :
    isContained
      ⟨ShapeType.square, 2, 0, Color.hex ("#3b82f6"), 1⟩
      ⟨ShapeType.square, 2, 0, Color.hex ("#3b82f6"), 1⟩ :=
  containment_reflexive ⟨ShapeType.square, 2, 0, Color.hex ("#3b82f6"), 1⟩
    (by norm_num) (fun hx => ShapeType.noConfusion hx)

/-- C8: containment is size-monotonic — if every vertex of `A` passes `B`'s
point-in-shape test and `A'` is `A` with a smaller (still nonnegative)
size, same type and rotation, then every vertex of `A'` passes too
(shapes carry nonnegative sizes per the data model). -/
theorem containment_size_monotonic (A B : Shape) (s' : ℝ)
    (hB : 0 ≤ B.size) (hs0 : 0 ≤ s') (hsA : s' ≤ A.size)
    (hAB : isContained A B) :
    isContained { A with size := s' } B := by
  have hA0 : 0 ≤ A.size := le_trans hs0 hsA
  rcases eq_or_lt_of_le hA0 with h0 | h0
  · have hseq : s' = A.size := by linarith
    rw [hseq]
    have hid : { A with size := A.size } = A := by
      obtain ⟨ty, size, rot, col, op⟩ := A
      rfl
    rw [hid]
    exact hAB
  · have ht0 : 0 ≤ s' / A.size := div_nonneg hs0 (le_of_lt h0)
    have ht1 : s' / A.size ≤ 1 := (div_le_one h0).mpr hsA
    intro v hv
    have hs'eq : s' = (s' / A.size) * A.size := by
      field_simp
    rw [hs'eq, getVertices_smul A (s' / A.size), List.mem_map] at hv
    obtain ⟨v0, hv0, rfl⟩ := hv
    exact isPointInShape_smul v0 B (s' / A.size) ht0 ht1 hB (hAB v0 hv0)

theorem containment_size_monotonic_witness :
    isContained
      ⟨ShapeType.square, 1, 0, Color.hex ("#3b82f6"), 1⟩
      ⟨ShapeType.square, 2, 0, Color.hex ("#3b82f6"), 1⟩ := by
  have hbase : isContained
      ⟨ShapeType.square, 2, 0, Color.hex ("#3b82f6"), 1⟩
      ⟨ShapeType.square, 2, 0, Color.hex ("#3b82f6"), 1⟩ := by
    intro v hv
    simp only [getVertices] at hv
    rw [List.mem_map] at hv
    obtain ⟨c, hc, rfl⟩ := hv
    simp only [isPointInShape]
    rw [local_x_rotatePoint, local_y_rotatePoint]
    simp at hc
    rcases hc with rfl | rfl | rfl | rfl <;>
      (simp only [abs_le]; constructor <;> constructor <;> norm_num)
  exact containment_size_monotonic
    ⟨ShapeType.square, 2, 0, Color.hex ("#3b82f6"), 1⟩
    ⟨ShapeType.square, 2, 0, Color.hex ("#3b82f6"), 1⟩ 1
    (by norm_num) (by norm_num) (by norm_num) hbase
